import Mathlib

/-!
Verification development for the `mcp_toolkit` repository
(`mcp_toolkit/client/`: `helper.py`, `client_manager.py`, `chat.py`,
`chunks.py`, `constants.py`).

The Python code is shallowly embedded: Python dicts become ordered
association lists (insertion order is observable in Python and in the
source), Python exceptions become `Except`/`Option` results, and the
external capabilities the code calls out to (the network transport behind
a session, the model provider, `json.loads`) are passed in as explicit
parameters so that every definition stays executable.
-/

namespace MCPToolkit

/-! ## JSON-like values (Python `dict`/`list`/`str`/... as handled by the source) -/

/-- A Python value as manipulated by `helper.py` and `chat.py`: strings,
integers, booleans, `None`, lists, and string-keyed dicts kept in insertion
order. -/
inductive JsonVal where
  | jstr (s : String)
  | jnum (n : Int)
  | jbool (b : Bool)
  | jnull
  | jarr (l : List JsonVal)
  | jobj (l : List (String × JsonVal))
deriving Repr

/-- Structural decidable equality for `JsonVal` (Python `==` on these
values; the only cross-type comparisons the source performs are between
strings, where Python `==` is also structural). -/
def JsonVal.beq : JsonVal → JsonVal → Bool
  | .jstr a, .jstr b => a = b
  | .jnum a, .jnum b => a = b
  | .jbool a, .jbool b => a = b
  | .jnull, .jnull => true
  | .jarr a, .jarr b => beqList a b
  | .jobj a, .jobj b => beqObj a b
  | _, _ => false
where
  beqList : List JsonVal → List JsonVal → Bool
    | [], [] => true
    | x :: xs, y :: ys => (beq x y) && beqList xs ys
    | _, _ => false
  beqObj : List (String × JsonVal) → List (String × JsonVal) → Bool
    | [], [] => true
    | (k, x) :: xs, (k2, y) :: ys => (k = k2 : Bool) && beq x y && beqObj xs ys
    | _, _ => false

instance : BEq JsonVal := ⟨JsonVal.beq⟩

mutual
/-- Soundness and completeness of `JsonVal.beq` (stated as a definition so
that the decidability instance below remains part of the data model). -/
def JsonVal.beq_iff : ∀ a b : JsonVal, JsonVal.beq a b = true ↔ a = b
  | .jstr a, b => by cases b <;> simp [JsonVal.beq]
  | .jnum a, b => by cases b <;> simp [JsonVal.beq]
  | .jbool a, b => by cases b <;> simp [JsonVal.beq]
  | .jnull, b => by cases b <;> simp [JsonVal.beq]
  | .jarr a, b => by
      cases b <;> simp [JsonVal.beq]
      exact JsonVal.beqList_iff a _
  | .jobj a, b => by
      cases b <;> simp [JsonVal.beq]
      exact JsonVal.beqObj_iff a _

/-- `JsonVal.beq_iff` lifted to lists. -/
def JsonVal.beqList_iff : ∀ a b : List JsonVal, JsonVal.beq.beqList a b = true ↔ a = b
  | [], [] => by simp [JsonVal.beq.beqList]
  | [], _ :: _ => by simp [JsonVal.beq.beqList]
  | _ :: _, [] => by simp [JsonVal.beq.beqList]
  | x :: xs, y :: ys => by
      simp [JsonVal.beq.beqList, JsonVal.beq_iff x y, JsonVal.beqList_iff xs ys]

/-- `JsonVal.beq_iff` lifted to key-value lists. -/
def JsonVal.beqObj_iff : ∀ a b : List (String × JsonVal), JsonVal.beq.beqObj a b = true ↔ a = b
  | [], [] => by simp [JsonVal.beq.beqObj]
  | [], _ :: _ => by simp [JsonVal.beq.beqObj]
  | _ :: _, [] => by simp [JsonVal.beq.beqObj]
  | (k, x) :: xs, (k2, y) :: ys => by
      simp only [JsonVal.beq.beqObj, Bool.and_assoc, Bool.and_eq_true, decide_eq_true_eq,
        JsonVal.beq_iff x y, JsonVal.beqObj_iff xs ys, List.cons.injEq, Prod.mk.injEq]
      tauto
end

instance : DecidableEq JsonVal := fun a b =>
  decidable_of_iff (JsonVal.beq a b = true) (JsonVal.beq_iff a b)

instance : LawfulBEq JsonVal where
  eq_of_beq h := (JsonVal.beq_iff _ _).mp h
  rfl := (JsonVal.beq_iff _ _).mpr rfl

/-! ## Python dict operations on ordered association lists -/

/-- `k in d` for a Python dict. -/
def hasKey (l : List (String × JsonVal)) (k : String) : Bool :=
  l.any (fun p => p.1 = k)

/-- `d.get(k)` / `d[k]` for a Python dict (keys are unique in Python, so
first match). -/
def getKey? (l : List (String × JsonVal)) (k : String) : Option JsonVal :=
  (l.find? (fun p => p.1 = k)).map (fun p => p.2)

/-- `d[k] = v` for a Python dict: update in place keeping the key's
position if present, else append at the end. -/
def setKey (l : List (String × JsonVal)) (k : String) (v : JsonVal) :
    List (String × JsonVal) :=
  match l with
  | [] => [(k, v)]
  | (k2, v2) :: t => if k2 = k then (k, v) :: t else (k2, v2) :: setKey t k v

/-- `del d[k]` for a Python dict: remove the (unique) entry for `k`. -/
def delKey (l : List (String × JsonVal)) (k : String) : List (String × JsonVal) :=
  match l with
  | [] => []
  | (k2, v2) :: t => if k2 = k then t else (k2, v2) :: delKey t k

/-! ## Python exceptions -/

/-- The Python exceptions the embedded code can raise. -/
inductive PyErr where
  | typeError
  | keyError
  | indexError
  | attributeError
  | valueError
  | jsonDecodeError
  | connectionError
deriving DecidableEq, Repr

/-- `str(e)` as used in the `f"Error: {str(e)}"` chunks (the exact Python
message text is irrelevant to every claim; only the chunk kind is). -/
def pyErrStr : PyErr → String
  | .typeError => "TypeError"
  | .keyError => "KeyError"
  | .indexError => "IndexError"
  | .attributeError => "AttributeError"
  | .valueError => "ValueError"
  | .jsonDecodeError => "JSONDecodeError"
  | .connectionError => "ConnectionError"

/-- Substring test on character lists (Python `needle in haystack` for
strings). -/
def charsHaveSub : List Char → List Char → Bool
  | _, [] => true
  | [], _ :: _ => false
  | h :: t, n :: nt =>
      (charsStartWith (h :: t) (n :: nt)) || charsHaveSub t (n :: nt)
where
  charsStartWith : List Char → List Char → Bool
    | _, [] => true
    | [], _ :: _ => false
    | h :: t, n :: nt => (h = n : Bool) && charsStartWith t nt

/-- Python substring membership `needle in hay` on strings. -/
def strHasSub (hay needle : String) : Bool :=
  charsHaveSub hay.toList needle.toList

/-- Python `x in v` for a string `x`: key membership on dicts, element
membership on lists, substring test on strings, `TypeError` otherwise. -/
def pyInOp (needle : String) (v : JsonVal) : Except PyErr Bool :=
  match v with
  | .jobj l => .ok (hasKey l needle)
  | .jarr l => .ok (l.contains (.jstr needle))
  | .jstr s => .ok (strHasSub s needle)
  | _ => .error .typeError

/-- Python `v[k]` for a string key `k`: dict lookup (`KeyError` when
absent), `TypeError` on any non-dict. -/
def pyGetItem (k : String) (v : JsonVal) : Except PyErr JsonVal :=
  match v with
  | .jobj l =>
      match getKey? l k with
      | some x => .ok x
      | none => .error .keyError
  | _ => .error .typeError

/-- Python `del v[k]`: dict deletion, `TypeError` on any non-dict. -/
def pyDelItem (k : String) (v : JsonVal) : Except PyErr JsonVal :=
  match v with
  | .jobj l => .ok (.jobj (delKey l k))
  | _ => .error .typeError

/-- Python `v[k] = x`: dict update, `TypeError` on any non-dict. -/
def pySetItem (k : String) (x : JsonVal) (v : JsonVal) : Except PyErr JsonVal :=
  match v with
  | .jobj l => .ok (.jobj (setKey l k x))
  | _ => .error .typeError

/-! ## `MCPHelper.filter_mcp_input_schema` (`helper.py` lines 12-54)

The Python function mutates its argument in place and returns the same
object; the embedding computes the final state of that object (an error
result models an uncaught Python exception). -/

/-- The type-collapse half of the body of the
`for key, value in input_schema["properties"].items()` loop
(`helper.py` lines 38-48), applied to the property value after default
stripping: a list-valued `type` is collapsed to a single entry
(preferring the first non-`"null"` entry and flagging `nullable`); an
empty type list raises `IndexError` (`value["type"][0]`). -/
def collapseTypeList (v1 : JsonVal) : Except PyErr JsonVal :=
  match pyInOp ("type") v1 with
  | .error e => .error e
  | .ok hasType =>
    if hasType then
      match pyGetItem ("type") v1 with
      | .error e => .error e
      | .ok t =>
        match t with
        | .jarr l =>
            if l.contains (.jstr ("null")) then
              match l.filter (fun x => x ≠ .jstr ("null")) with
              | [] => .ok v1
              | o :: _ =>
                  match pySetItem ("type") o v1 with
                  | .error e => .error e
                  | .ok v2 => pySetItem ("nullable") (.jbool true) v2
            else
              match l with
              | [] => .error .indexError
              | o :: _ => pySetItem ("type") o v1
        | _ => .ok v1
    else .ok v1

/-- The body of the `for key, value in input_schema["properties"].items()`
loop (`helper.py` lines 33-48): strip a `default` if present, then
collapse a list-valued `type` via `collapseTypeList`. -/
def processProperty (v : JsonVal) : Except PyErr JsonVal :=
  match pyInOp ("default") v with
  | .error e => .error e
  | .ok hasDef =>
    match (if hasDef then pyDelItem ("default") v else .ok v) with
    | .error e => .error e
    | .ok v1 => collapseTypeList v1

/-- The `for key, value in input_schema["properties"].items()` loop of
`helper.py` (lines 33-48): each property value is rewritten in place by
`processProperty`; a raised exception aborts the remaining iterations. -/
def processProperties : List (String × JsonVal) → Except PyErr (List (String × JsonVal))
  | [] => .ok []
  | (k, v) :: t =>
      match processProperty v with
      | .error e => .error e
      | .ok w =>
          match processProperties t with
          | .error e => .error e
          | .ok rest => .ok ((k, w) :: rest)

/-- The `for key in input_schema["properties"].keys()` loop of `helper.py`
(lines 29-31): append every property key missing from the `required` list. -/
def extendRequired (reqList : List JsonVal) (propsList : List (String × JsonVal)) :
    List JsonVal :=
  propsList.foldl
    (fun r kv => if r.contains (.jstr kv.1) then r else r ++ [.jstr kv.1]) reqList

/-- `MCPHelper.filter_mcp_input_schema`: force every property into
`required`, strip defaults, collapse list-valued types, default
`additionalProperties` to `false`. Acts on the top-level schema dict. -/
def filter_mcp_input_schema (input_schema : List (String × JsonVal)) :
    Except PyErr (List (String × JsonVal)) :=
  if hasKey input_schema ("properties") then
    match getKey? input_schema ("properties") with
    | none => .error .keyError
    | some props =>
      match props with
      | .jobj propsList =>
        let s1 :=
          match getKey? input_schema ("required") with
          | some (.jarr reqList) =>
              setKey input_schema ("required")
                (.jarr (extendRequired reqList propsList))
          | _ =>
              setKey input_schema ("required")
                (.jarr (propsList.map (fun kv => .jstr kv.1)))
        match processProperties propsList with
        | .error e => .error e
        | .ok newPl =>
          let s2 := setKey s1 ("properties") (.jobj newPl)
          if hasKey s2 ("additionalProperties") then .ok s2
          else .ok (setKey s2 ("additionalProperties") (.jbool false))
      | _ => .error .attributeError
  else .ok input_schema

/-- ASCII lower-casing of one character (every provider string the source
lower-cases is ASCII). -/
def lowerChar (c : Char) : Char :=
  if 65 ≤ c.toNat ∧ c.toNat ≤ 90 then Char.ofNat (c.toNat + 32) else c

/-- Python `provider.lower()` as used by the dispatch sites. -/
def pyLower (s : String) : String := ⟨s.data.map lowerChar⟩

/-! ## Tool descriptors and `MCPHelper.format_tools_object_for_llm_call`
(`helper.py` lines 146-176) -/

/-- A tool object as listed from a session (`name`, `description`,
`inputSchema`). -/
structure ToolDescr where
  name : String
  description : String
  inputSchema : List (String × JsonVal)
deriving DecidableEq, Repr

/-- One element of the tool list sent to the provider. -/
inductive FormattedTool where
  /-- Anthropic shape: `name`/`description`/`input_schema` passthrough. -/
  | anthropicTool (name description : String) (input_schema : List (String × JsonVal))
  /-- OpenAI shape: `type: function` wrapper with `strict: true` and the
  filtered `parameters`. -/
  | openaiTool (name description : String) (strict : Bool)
      (parameters : List (String × JsonVal))
deriving DecidableEq, Repr

/-- The OpenAI branch of `format_tools_object_for_llm_call`: the list
comprehension evaluates `filter_mcp_input_schema(tool.inputSchema)` per
tool in order, so an exception aborts before later tools are processed. -/
def formatOpenaiTools : List ToolDescr → Except PyErr (List FormattedTool)
  | [] => .ok []
  | t :: ts =>
      match filter_mcp_input_schema t.inputSchema with
      | .error e => .error e
      | .ok params =>
          match formatOpenaiTools ts with
          | .error e => .error e
          | .ok rest => .ok (.openaiTool t.name t.description true params :: rest)

/-- `MCPHelper.format_tools_object_for_llm_call`: dispatch on the
lower-cased provider string; unknown providers yield `[]`. -/
def format_tools_object_for_llm_call (tool_objects : List ToolDescr) (provider : String) :
    Except PyErr (List FormattedTool) :=
  if pyLower provider = ("anthropic") then
    .ok (tool_objects.map (fun t => .anthropicTool t.name t.description t.inputSchema))
  else if pyLower provider = ("openai") then
    formatOpenaiTools tool_objects
  else
    .ok []

/-- Post-state of one tool descriptor's `inputSchema` dict after
`format_tools_object_for_llm_call` has processed that descriptor. On the
`openai` path the source passes the descriptor's own schema dict to
`filter_mcp_input_schema`, which rewrites that dict in place and returns
the very same object (`helper.py` lines 22-54 and 171), so the dict's
final state is the filter's result; the `anthropic` path and unknown
providers never touch the schema. An error models the call raising. -/
def inputSchemaAfterFormat (provider : String) (t : ToolDescr) :
    Except PyErr (List (String × JsonVal)) :=
  if pyLower provider = ("openai") then filter_mcp_input_schema t.inputSchema
  else .ok t.inputSchema

/-! ## Well-formedness predicates used to state normalizer properties -/

/-- Keys of a dict are pairwise distinct — always true of a real Python
dict, where duplicate keys cannot exist. -/
def keysNodup : List (String × JsonVal) → Bool
  | [] => true
  | (k, _) :: t => (!hasKey t k) && keysNodup t

/-- Is the value a Python `list`? -/
def JsonVal.isArr : JsonVal → Bool
  | .jarr _ => true
  | _ => false

/-- The element that `helper.py` lines 39-48 would collapse a list-valued
`type` to is itself not a list. (When the selected element is again a
list, a second normalization pass collapses it once more.) -/
def flatCollapse (v : JsonVal) : Bool :=
  match v with
  | .jobj pl =>
      match getKey? pl ("type") with
      | some (.jarr l) =>
          if l.contains (.jstr ("null")) then
            match l.filter (fun x => x ≠ .jstr ("null")) with
            | [] => true
            | o :: _ => !o.isArr
          else
            match l with
            | [] => true
            | o :: _ => !o.isArr
      | _ => true
  | _ => true

/-- Well-formedness of one property value for the idempotence statement:
dict-valued properties have distinct keys (the Python dict invariant) and
the type-collapse target is not itself a list. -/
def propOk (v : JsonVal) : Bool :=
  (match v with | .jobj pl => keysNodup pl | _ => true) && flatCollapse v

/-- The properties dict of a schema, when present and dict-shaped. -/
def propsOf (s : List (String × JsonVal)) : List (String × JsonVal) :=
  match getKey? s ("properties") with
  | some (.jobj pl) => pl
  | _ => []

/-! ## `MultipleMCPClientManager` (`client_manager.py`) -/

/-- String-keyed Python dict membership, generic in the value type. -/
def hasKeyStr {α : Type} (l : List (String × α)) (k : String) : Bool :=
  l.any (fun p => p.1 = k)

/-- String-keyed Python dict `get`, generic in the value type. -/
def lookupStr {α : Type} (l : List (String × α)) (k : String) : Option α :=
  (l.find? (fun p => p.1 = k)).map (fun p => p.2)

/-- Observable behavior of one live backend session: the tools it lists
and the text payload its tool calls return. The transport behind a
session is outside this repository, so it enters as data. -/
structure SessionBeh where
  tools : List ToolDescr
  call : String → JsonVal → String

/-- The inner `for tool in tools.tools` loop of `list_tools`
(`client_manager.py` lines 160-163): a name not yet in `tool_map`
registers the owning server and appends the tool object; a name already
registered is skipped without error. -/
def registerTools (server : String) :
    List ToolDescr → List (String × String) × List ToolDescr →
    List (String × String) × List ToolDescr
  | [], acc => acc
  | tool :: rest, (tm, ct) =>
      if hasKeyStr tm tool.name then registerTools server rest (tm, ct)
      else registerTools server rest (tm ++ [(tool.name, server)], ct ++ [tool])

/-- The outer `for server_name, session in self.sessions.items()` loop of
`list_tools` (lines 156-163), in session registration order. -/
def listToolsFrom :
    List (String × SessionBeh) → List (String × String) × List ToolDescr →
    List (String × String) × List ToolDescr
  | [], acc => acc
  | (server, beh) :: rest, acc => listToolsFrom rest (registerTools server beh.tools acc)

/-- `MultipleMCPClientManager.list_tools` (lines 144-165): returns
`(tool_map, consolidated_tools)`. -/
def list_tools (sessions : List (String × SessionBeh)) :
    List (String × String) × List ToolDescr :=
  listToolsFrom sessions ([], [])

/-- `MultipleMCPClientManager.call_tool` (lines 167-188): look up the
owning server (`if not server_name:` treats a missing key and an empty
server name alike), then delegate to that session; `none` is the `None`
"not found" signal — this function never raises. -/
def call_tool (tool_name : String) (arguments : JsonVal)
    (tool_map : List (String × String)) (sessions : List (String × SessionBeh)) :
    Option String :=
  match lookupStr tool_map tool_name with
  | none => none
  | some server_name =>
      if server_name = "" then none
      else
        match lookupStr sessions server_name with
        | some session => some (session.call tool_name arguments)
        | none => none

/-- One configured backend as consumed by the registry's `initialize`
(lines 114-142): its registration name (the stdio map key, or `mcp_name`
for an SSE entry) and whether establishing its transport and session
succeeds — the network is outside the repository, so success enters as
data. -/
structure BackendCfg where
  name : String
  initOk : Bool
deriving DecidableEq, Repr

/-- Registry connection state: the session map (server name → session
tag), every context entered on the `AsyncExitStack` in open order, and
every context that has been closed again. -/
structure ManagerState where
  sessions : List (String × String)
  openedResources : List String
  closedResources : List String
deriving DecidableEq, Repr

/-- `MultipleMCPClientManager.initialize` (lines 114-142) over the
combined backend order (the stdio map first, then the SSE list — the two
loops have identical structure): each successful backend enters its
transport and its session on the exit stack and registers the session;
the first failure is logged and re-raised, and the `except` block closes
nothing (a backend failing mid-establishment is modelled as opening
nothing of its own — the claims concern the sessions of earlier
backends). -/
def initManager : List BackendCfg → ManagerState → ManagerState × Option PyErr
  | [], st => (st, none)
  | b :: rest, st =>
      if b.initOk then
        initManager rest
          { st with
            sessions := st.sessions ++ [(b.name, "session:" ++ b.name)],
            openedResources :=
              st.openedResources ++ [b.name ++ ":transport", b.name ++ ":session"] }
      else
        (st, some .connectionError)

/-- `initialize` on a freshly constructed manager (`__init__`, lines
101-112: empty session map, empty exit stack). -/
def initializeManager (stdio sse : List BackendCfg) : ManagerState × Option PyErr :=
  initManager (stdio ++ sse) ⟨[], [], []⟩

/-! ## Synthetic chunks (`chunks.py`, `constants.py`) -/

/-- `MessageType` (`constants.py` lines 9-17). -/
inductive MessageType where
  | data
  | progress
  | error
  | stream_start
  | stream_end
  | conversation_title
  | last_ai_message
deriving DecidableEq, Repr

/-- A synthetic chunk built by `create_llm_chunk` (`chunks.py` lines
105-122): the provider-specific wrapper (`OpenAICompatibleChunk` or
`AnthropicCompatibleChunk`) around the `(type, content)` pair. The
wrapper's `id`/`created` fields are fresh identifiers and timestamps, not
modelled. -/
structure SynthChunk where
  kind : MessageType
  content : String
  provider : String
deriving DecidableEq, Repr

/-- `create_llm_chunk` (lines 105-122). Its unknown-provider `ValueError`
branch is unreachable from the orchestrator, where `provider` is the
literal `'openai'` or `'anthropic'` at every call site. -/
def create_llm_chunk (chunk_type : MessageType) (content : String) (provider : String) :
    SynthChunk :=
  ⟨chunk_type, content, provider⟩

/-! ## Tool-call accumulation from streamed deltas (`chat.py`) -/

/-- One accumulated tool call (`chat.py` lines 200-216): the `type` field
is always the literal `"function"`. -/
structure ToolCallEntry where
  id : String
  type : String
  name : String
  arguments : String
deriving DecidableEq, Repr

/-- One element of `chunk.choices[0].delta.tool_calls` in an OpenAI
stream (lines 199-216). In the source `id`, `name` and `arguments` may
each be `None` or a string; the code only tests truthiness and takes
`x or ""`, under which `None` and `""` are indistinguishable, so both are
encoded as `""`. -/
structure ToolCallDelta where
  index : Nat
  id : String
  name : String
  arguments : String
deriving DecidableEq, Repr

/-- One streamed OpenAI chunk as inspected by lines 195-223: its
`tool_calls` list (`[]` for an absent, `None` or empty attribute — all
falsy at line 198) and its text content (`""` for absent/`None`/empty —
all falsy at line 219). The source reads both through
`chunk.choices[0].delta`; chunks are modelled as carrying that first
choice's delta directly (a provider chunk with no choices, which would
trip the per-chunk `except` handler, is outside every claim). -/
structure OpenAIChunk where
  tool_calls : List ToolCallDelta
  content : String
deriving DecidableEq, Repr

/-- The per-turn accumulation state of `process_openai_stream_chat`
(lines 190-193): the `final_tool_calls` dict in insertion order, the
`tool_index` counter, and the `content_buffer`. -/
structure OpenAIAccState where
  final_tool_calls : List (Nat × ToolCallEntry)
  tool_index : Nat
  content_buffer : String
deriving DecidableEq, Repr

/-- `final_tool_calls[i]` lookup (Python int-keyed dict, keys unique). -/
def lookupIdx (l : List (Nat × ToolCallEntry)) (i : Nat) : Option ToolCallEntry :=
  (l.find? (fun p => p.1 = i)).map (fun p => p.2)

/-- `final_tool_calls[i] = e` on an existing key keeps its position. -/
def setIdx (l : List (Nat × ToolCallEntry)) (i : Nat) (e : ToolCallEntry) :
    List (Nat × ToolCallEntry) :=
  match l with
  | [] => [(i, e)]
  | (j, f) :: t => if j = i then (i, e) :: t else (j, f) :: setIdx t i e

/-- Processing one streamed tool-call delta (lines 200-216): a new index
opens an entry seeded from the delta (with a synthesized
`call_<tool_index>` id when the provider sent none); an existing index
has its `name` overwritten when the delta carries a non-empty name and
its `arguments` extended when the delta carries a non-empty fragment. -/
def openaiDeltaStep (st : OpenAIAccState) (d : ToolCallDelta) : OpenAIAccState :=
  match lookupIdx st.final_tool_calls d.index with
  | none =>
      { st with
        final_tool_calls := st.final_tool_calls ++
          [(d.index,
            { id := if d.id = "" then "call_" ++ toString st.tool_index else d.id,
              type := "function", name := d.name, arguments := d.arguments })],
        tool_index := st.tool_index + 1 }
  | some e =>
      let e := if d.name ≠ "" then { e with name := d.name } else e
      let e := if d.arguments ≠ "" then { e with arguments := e.arguments ++ d.arguments }
               else e
      { st with final_tool_calls := setIdx st.final_tool_calls d.index e }

/-- Processing one streamed chunk (lines 195-223): fold its deltas, then
append any text content to the running buffer. The chunk itself is passed
through to the caller unchanged. -/
def openaiChunkStep (st : OpenAIAccState) (c : OpenAIChunk) : OpenAIAccState :=
  let st := c.tool_calls.foldl openaiDeltaStep st
  if c.content ≠ "" then { st with content_buffer := st.content_buffer ++ c.content }
  else st

/-- The accumulation state at the top of each turn (lines 190-193). -/
def openaiAccInit : OpenAIAccState := ⟨[], 0, ""⟩

/-- One streamed Anthropic event as inspected by lines 413-441. -/
inductive AnthEvent where
  /-- `content_block_start` carrying `content_block.type`, `.id`, `.name`. -/
  | contentBlockStart (blockType : String) (id : String) (name : String)
  /-- `content_block_delta` carrying `delta.type` and `delta.partial_json`
  (the fragment). -/
  | contentBlockDelta (deltaType : String) (fragment : String)
  /-- Any other event type. -/
  | otherEvent (tag : String)
deriving DecidableEq, Repr

/-- The per-turn Anthropic accumulation state (lines 409-411). -/
structure AnthAccState where
  final_tool_calls : List (Nat × ToolCallEntry)
  tool_index : Nat
  current_tool_index : Option Nat
deriving DecidableEq, Repr

/-- The accumulation state at the top of each Anthropic turn. -/
def anthAccInit : AnthAccState := ⟨[], 0, none⟩

/-- Processing one Anthropic event (lines 416-436): a `tool_use`
content-block start opens a new entry at the next sequential index and
marks it current; an `input_json_delta` appends its fragment
(`partial_json` in the source) to the current entry — when no current
entry is open (line 434 guard) the fragment is simply not recorded;
every other event changes nothing. -/
def anthChunkStep (st : AnthAccState) (c : AnthEvent) : AnthAccState :=
  match c with
  | .contentBlockStart blockType id name =>
      if blockType = "tool_use" then
        { final_tool_calls :=
            st.final_tool_calls ++ [(st.tool_index, ⟨id, "function", name, ""⟩)],
          tool_index := st.tool_index + 1,
          current_tool_index := some st.tool_index }
      else st
  | .contentBlockDelta deltaType fragment =>
      if deltaType = "input_json_delta" then
        match st.current_tool_index with
        | some i =>
            match lookupIdx st.final_tool_calls i with
            | some e =>
                { st with
                  final_tool_calls :=
                    setIdx st.final_tool_calls i
                      { e with arguments := e.arguments ++ fragment } }
            | none => st
        | none => st
      else st
  | .otherEvent _ => st

/-- One chunk of the orchestrator's output stream: a provider chunk
passed through unmodified, or a synthetic chunk. -/
inductive OutChunk (χ : Type) where
  | passthrough (c : χ)
  | synthetic (c : SynthChunk)
deriving DecidableEq, Repr

/-- The `async for chunk in stream_response` accumulation loop of
`process_anthropic_stream_chat` (lines 413-441): every provider chunk is
passed through; synthetic chunks could only come from the per-chunk
`except` handler, which no path of the loop body reaches. -/
def anthProcessStream (chunks : List AnthEvent) : AnthAccState × List (OutChunk AnthEvent) :=
  chunks.foldl (fun acc c => (anthChunkStep acc.1 c, acc.2 ++ [.passthrough c]))
    (anthAccInit, [])

/-! ## Conversation messages and helper conversions -/

/-- An Anthropic `tool_use` content block
(`convert_to_anthropic_tool_format`, `helper.py` lines 105-112). -/
structure ToolUseBlock where
  id : String
  name : String
  input : JsonVal
deriving DecidableEq, Repr

/-- A conversation message as appended by `chat.py` / `helper.py`. -/
inductive Message where
  /-- A caller-provided message, kept opaque. -/
  | initial (payload : String)
  /-- `{"role": "assistant", "content": ...}` (`chat.py` line 265). -/
  | assistantContent (content : String)
  /-- `{"role": "assistant", "content": None, "tool_calls": [...]}`
  (lines 235-238). -/
  | assistantToolCalls (tool_calls : List ToolCallEntry)
  /-- The OpenAI-shape tool result (`create_tool_result_message`,
  `helper.py` lines 138-143). -/
  | toolResult (tool_call_id : String) (content : String)
  /-- The Anthropic assistant message of `tool_use` blocks (`chat.py`
  lines 445-448). -/
  | assistantToolUse (blocks : List ToolUseBlock)
  /-- The Anthropic-shape tool result (`helper.py` lines 127-137). -/
  | userToolResult (tool_use_id : String) (content : String)
deriving DecidableEq, Repr

/-- `MCPHelper.convert_to_openai_tool_format` (`helper.py` lines 57-92):
`final_tool_calls.values()` in insertion order, re-packed with the same
four fields. -/
def convert_to_openai_tool_format (final_tool_calls : List (Nat × ToolCallEntry)) :
    List ToolCallEntry :=
  final_tool_calls.map (fun p => p.2)

/-- `MCPHelper.convert_to_anthropic_tool_format` (lines 95-112):
`json.loads` each entry's accumulated arguments in order; a parse failure
raises out of the list comprehension. The standard-library parser enters
as the `jsonParse` parameter (`none` models a raised decode error). -/
def convert_to_anthropic_tool_format (jsonParse : String → Option JsonVal) :
    List (Nat × ToolCallEntry) → Except PyErr (List ToolUseBlock)
  | [] => .ok []
  | (_, e) :: t =>
      match jsonParse e.arguments with
      | some input =>
          match convert_to_anthropic_tool_format jsonParse t with
          | .error err => .error err
          | .ok rest => .ok (⟨e.id, e.name, input⟩ :: rest)
      | none => .error .jsonDecodeError

/-- `MCPHelper.create_tool_result_message` (lines 115-143). -/
def create_tool_result_message (tool_call_id : String) (observation : String)
    (provider : String) : Message :=
  if pyLower provider = ("anthropic") then .userToolResult tool_call_id observation
  else .toolResult tool_call_id observation

/-- Python `str(observation)` on `call_tool`'s result: `str(None)` is the
four characters `None`. -/
def pyStrOfObs : Option String → String
  | none => "None"
  | some s => s

/-! ## `MCPChat.process_tool_calls` (`chat.py` lines 91-125) -/

/-- The outcome of running `process_tool_calls` to completion or to its
uncaught exception: the synthetic chunks it yielded, the conversation
after its appends, every `call_tool` invocation it made, and the escaped
exception if any. -/
structure ToolLoopResult where
  out : List SynthChunk
  msgs : List Message
  invoked : List (String × JsonVal)
  err : Option PyErr
deriving Repr

/-- The `for i, tool_call in enumerate(final_tool_calls.values())` loop
(lines 106-122). Per entry: `json.loads` the accumulated arguments (a
failure raises out of the generator before any chunk for that entry is
yielded), yield an "Executing" progress chunk, invoke the tool through
the registry, append the tool-result message built from
`str(observation)`, yield a completion progress chunk. After the loop one
final progress chunk is yielded (lines 124-125). -/
def toolCallLoop (jsonParse : String → Option JsonVal)
    (sessions : List (String × SessionBeh)) (tool_map : List (String × String))
    (provider : String) : List ToolCallEntry → List Message → ToolLoopResult
  | [], msgs =>
      ⟨[create_llm_chunk .progress ("All tools executed successfully.") provider],
       msgs, [], none⟩
  | e :: rest, msgs =>
      match jsonParse e.arguments with
      | none => ⟨[], msgs, [], some .jsonDecodeError⟩
      | some args =>
          let observation := call_tool e.name args tool_map sessions
          let msg := create_tool_result_message e.id (pyStrOfObs observation) provider
          let r := toolCallLoop jsonParse sessions tool_map provider rest (msgs ++ [msg])
          ⟨create_llm_chunk .progress ("Executing tool: " ++ e.name ++ "...") provider ::
             create_llm_chunk .progress ("Tool " ++ e.name ++ " execution complete.")
               provider :: r.out,
           r.msgs, (e.name, args) :: r.invoked, r.err⟩

/-- `MCPChat.process_tool_calls` (lines 91-125): an empty dict returns at
once with no chunks (line 103). -/
def process_tool_calls (jsonParse : String → Option JsonVal)
    (sessions : List (String × SessionBeh)) (tool_map : List (String × String))
    (provider : String) (final_tool_calls : List (Nat × ToolCallEntry))
    (msgs : List Message) : ToolLoopResult :=
  if final_tool_calls.isEmpty then ⟨[], msgs, [], none⟩
  else
    toolCallLoop jsonParse sessions tool_map provider
      (final_tool_calls.map (fun p => p.2)) msgs

/-! ## The bounded multi-turn orchestrator loops (`chat.py`) -/

/-- The post-`setup_client` environment of a run: the standard-library
JSON parser, the live sessions, and the routing table from `list_tools`. -/
structure ChatEnv where
  jsonParse : String → Option JsonVal
  sessions : List (String × SessionBeh)
  tool_map : List (String × String)

/-- Observable state of one orchestrator run over passthrough chunks of
type `χ`: the conversation, how many model-provider calls were made, how
many loop iterations ran, the emitted output stream, every tool
invocation, and the exception that reached the orchestration boundary
(lines 268-270 / 478-480), if any. -/
structure RunState (χ : Type) where
  chat_messages : List Message
  modelCalls : Nat
  turnsUsed : Nat
  out : List (OutChunk χ)
  invoked : List (String × JsonVal)
  errored : Option PyErr

/-- One iteration of the `for turn in range(self.max_turns)` loop of
`process_openai_stream_chat` (lines 167-266), returning the new state and
whether the loop continues. The model provider enters as `oracle`: the
chunk stream returned by the n-th `client.chat.completions.create` call
of the run. An exception escaping `process_tool_calls` reaches the
boundary handler (lines 268-270), which emits one terminal ERROR chunk
and ends the stream. -/
def runOneTurn (env : ChatEnv) (oracle : Nat → List OpenAIChunk)
    (st : RunState OpenAIChunk) : RunState OpenAIChunk × Bool :=
  let st := if st.turnsUsed = 0 then
      { st with out := st.out ++ [.synthetic (create_llm_chunk .progress
          ("Analyzing your question and determining next steps...") ("openai"))] }
    else st
  let chunks := oracle st.modelCalls
  let st := { st with
    modelCalls := st.modelCalls + 1,
    turnsUsed := st.turnsUsed + 1,
    out := st.out ++ chunks.map OutChunk.passthrough }
  let acc := chunks.foldl openaiChunkStep openaiAccInit
  if acc.final_tool_calls.isEmpty then
    let st : RunState OpenAIChunk := if acc.content_buffer ≠ "" then
        { st with chat_messages :=
            st.chat_messages ++ [.assistantContent acc.content_buffer] }
      else st
    (st, false)
  else
    let st : RunState OpenAIChunk := { st with
      out := st.out ++ [.synthetic (create_llm_chunk .progress
        ("Using MCP tools to gather information...") ("openai"))],
      chat_messages := st.chat_messages ++
        [.assistantToolCalls (convert_to_openai_tool_format acc.final_tool_calls)] }
    let r := process_tool_calls env.jsonParse env.sessions env.tool_map ("openai")
      acc.final_tool_calls st.chat_messages
    let st := { st with
      out := st.out ++ r.out.map OutChunk.synthetic,
      chat_messages := r.msgs,
      invoked := st.invoked ++ r.invoked }
    match r.err with
    | some e =>
        (({ st with
           out := st.out ++ [.synthetic (create_llm_chunk .error
             ("Error: " ++ pyErrStr e) ("openai"))],
           errored := some e } : RunState OpenAIChunk), false)
    | none =>
        let st : RunState OpenAIChunk := { st with out := st.out ++ [.synthetic (create_llm_chunk .progress
          ("Information gathered. Formulating complete response...") ("openai"))] }
        let follow := oracle st.modelCalls
        ({ st with
           modelCalls := st.modelCalls + 1,
           out := st.out ++ follow.map OutChunk.passthrough }, true)

/-- The `for turn in range(self.max_turns)` loop (line 167), recursing on
the remaining turn budget. -/
def runTurns (env : ChatEnv) (oracle : Nat → List OpenAIChunk) :
    Nat → RunState OpenAIChunk → RunState OpenAIChunk
  | 0, st => st
  | n + 1, st =>
      let r := runOneTurn env oracle st
      if r.2 then runTurns env oracle n r.1 else r.1

/-- `MCPChat.process_openai_stream_chat` (lines 155-270) after a
successful `setup_client` (lines 72-89 — session establishment and
`list_tools` are the registry functions modelled above; the resulting
sessions and routing table are carried in `env`): emit the warm-up
progress chunk, snapshot the caller's messages, then run at most
`max_turns` loop iterations. -/
def process_openai_stream_chat (env : ChatEnv) (oracle : Nat → List OpenAIChunk)
    (messages : List Message) (max_turns : Nat) : RunState OpenAIChunk :=
  runTurns env oracle max_turns
    { chat_messages := messages, modelCalls := 0, turnsUsed := 0,
      out := [.synthetic (create_llm_chunk .progress
        ("Warming up the thinking engine...") ("openai"))],
      invoked := [], errored := none }

/-- One iteration of the `for turn in range(self.max_turns)` loop of
`process_anthropic_stream_chat` (lines 387-476). Structure mirrors the
OpenAI loop, with two differences visible here: the assistant tool-use
message is built by `convert_to_anthropic_tool_format`, whose `json.loads`
can raise before any tool runs, and the no-tools branch appends no
content message (lines 474-476). -/
def runOneTurnAnth (env : ChatEnv) (oracle : Nat → List AnthEvent)
    (st : RunState AnthEvent) : RunState AnthEvent × Bool :=
  let st := if st.turnsUsed = 0 then
      { st with out := st.out ++ [.synthetic (create_llm_chunk .progress
          ("Analyzing your question and determining next steps...") ("anthropic"))] }
    else st
  let chunks := oracle st.modelCalls
  let st := { st with
    modelCalls := st.modelCalls + 1,
    turnsUsed := st.turnsUsed + 1,
    out := st.out ++ chunks.map OutChunk.passthrough }
  let acc := chunks.foldl anthChunkStep anthAccInit
  if acc.final_tool_calls.isEmpty then
    (st, false)
  else
    match convert_to_anthropic_tool_format env.jsonParse acc.final_tool_calls with
    | .error e =>
        (({ st with
           out := st.out ++ [.synthetic (create_llm_chunk .error
             ("Error: " ++ pyErrStr e) ("anthropic"))],
           errored := some e } : RunState AnthEvent), false)
    | .ok blocks =>
        let st : RunState AnthEvent := { st with
          chat_messages := st.chat_messages ++ [.assistantToolUse blocks] }
        let st : RunState AnthEvent := { st with
          out := st.out ++ [.synthetic (create_llm_chunk .progress
            ("Using MCP tools to gather information...") ("anthropic"))] }
        let r := process_tool_calls env.jsonParse env.sessions env.tool_map ("anthropic")
          acc.final_tool_calls st.chat_messages
        let st := { st with
          out := st.out ++ r.out.map OutChunk.synthetic,
          chat_messages := r.msgs,
          invoked := st.invoked ++ r.invoked }
        match r.err with
        | some e =>
            (({ st with
               out := st.out ++ [.synthetic (create_llm_chunk .error
                 ("Error: " ++ pyErrStr e) ("anthropic"))],
               errored := some e } : RunState AnthEvent), false)
        | none =>
            let st : RunState AnthEvent := { st with out := st.out ++ [.synthetic (create_llm_chunk .progress
              ("Information gathered. Formulating complete response...") ("anthropic"))] }
            let follow := oracle st.modelCalls
            ({ st with
               modelCalls := st.modelCalls + 1,
               out := st.out ++ follow.map OutChunk.passthrough }, true)

/-- The Anthropic turn loop (line 387). -/
def runTurnsAnth (env : ChatEnv) (oracle : Nat → List AnthEvent) :
    Nat → RunState AnthEvent → RunState AnthEvent
  | 0, st => st
  | n + 1, st =>
      let r := runOneTurnAnth env oracle st
      if r.2 then runTurnsAnth env oracle n r.1 else r.1

/-- `MCPChat.process_anthropic_stream_chat` (lines 375-480) after a
successful `setup_client`. -/
def process_anthropic_stream_chat (env : ChatEnv) (oracle : Nat → List AnthEvent)
    (messages : List Message) (max_turns : Nat) : RunState AnthEvent :=
  runTurnsAnth env oracle max_turns
    { chat_messages := messages, modelCalls := 0, turnsUsed := 0,
      out := [.synthetic (create_llm_chunk .progress
        ("Warming up the thinking engine...") ("anthropic"))],
      invoked := [], errored := none }

/-! ## Specification-side definitions and concrete fixtures -/

/-- Specification reading of the routing rule: the owner of a tool name is
the earliest-registering session in iteration order whose listing
contains that name. (Written from the spec's words, to be compared with
`list_tools`.) -/
def firstRegisteredOwner (sessions : List (String × SessionBeh)) (toolName : String) :
    Option String :=
  (sessions.find? (fun s => s.2.tools.any (fun t => t.name = toolName))).map
    (fun s => s.1)

/-- A schema whose property `x` has the list-valued type
`[["a"], "null"]`: Python data a caller can pass (nested lists are valid
JSON-schema-like input as far as the source is concerned). -/
def cex8 : List (String × JsonVal) :=
  [("properties", .jobj [("x", .jobj
    [("type", .jarr [.jarr [.jstr ("a")], .jstr ("null")])])])]

/-- `filter_mcp_input_schema cex8`: the null entry is dropped and the
selected type is the (still list-valued) `["a"]`. -/
def cex8once : List (String × JsonVal) :=
  [("properties", .jobj [("x", .jobj
    [("type", .jarr [.jstr ("a")]), ("nullable", .jbool true)])]),
   ("required", .jarr [.jstr ("x")]),
   ("additionalProperties", .jbool false)]

/-- `filter_mcp_input_schema cex8once`: the second pass collapses the
list-valued type `["a"]` once more, to the string `"a"`. -/
def cex8twice : List (String × JsonVal) :=
  [("properties", .jobj [("x", .jobj
    [("type", .jstr ("a")), ("nullable", .jbool true)])]),
   ("required", .jarr [.jstr ("x")]),
   ("additionalProperties", .jbool false)]

/-- A tool descriptor whose schema is not yet in normalized form. -/
def cex9 : ToolDescr := ⟨"t", "d", [("properties", .jobj [("x", .jobj [])])]⟩

/-- The state of `cex9`'s schema dict after the OpenAI formatting path has
run `filter_mcp_input_schema` on it in place. -/
def cex9after : List (String × JsonVal) :=
  [("properties", .jobj [("x", .jobj [])]),
   ("required", .jarr [.jstr ("x")]),
   ("additionalProperties", .jbool false)]

/-- A fragment of the standard-library JSON parser, sufficient for the
concrete runs below: it accepts the empty object and rejects everything
else (in particular the malformed text `oops`). -/
def sampleParse : String → Option JsonVal :=
  fun s => if s = "{}" then some (.jobj []) else none

/-- A backend session offering one tool `t`. -/
def sampleSession : SessionBeh := ⟨[⟨"t", "d", []⟩], fun _ _ => "obs"⟩

/-- A post-setup environment with the single session `srv` owning `t`. -/
def sampleEnv : ChatEnv := ⟨sampleParse, [("srv", sampleSession)], [("t", "srv")]⟩

/-- A model response that requests one call of tool `t` with arguments
`{}` — a "model capability that always requests a tool call" when
returned from every model invocation. -/
def sampleToolChunk : OpenAIChunk := ⟨[⟨0, "id0", "t", "{}"⟩], ""⟩

/-- A model response with two tool calls: entry 0 carries malformed
arguments text, entry 1 is well-formed. -/
def sampleBadChunk : OpenAIChunk :=
  ⟨[⟨0, "id0", "t", "oops"⟩, ⟨1, "id1", "t", "{}"⟩], ""⟩

/-! # Theorems

First the generic lemmas about the dict encodings, then one theorem (plus
counterexample and witness where applicable) per specification claim. -/

/-! ### Dict and accumulator lemmas -/

theorem lookupIdx_setIdx_self (l : List (Nat × ToolCallEntry)) (i : Nat) (e : ToolCallEntry) :
    lookupIdx (setIdx l i e) i = some e := by
  induction l with
  | nil => simp [setIdx, lookupIdx]
  | cons p t ih =>
      obtain ⟨j, f⟩ := p
      by_cases h : j = i
      · simp [setIdx, h, lookupIdx]
      · simpa [setIdx, h, lookupIdx, List.find?] using ih

theorem lookupIdx_setIdx_ne (l : List (Nat × ToolCallEntry)) (i j : Nat) (e : ToolCallEntry)
    (h : j ≠ i) : lookupIdx (setIdx l i e) j = lookupIdx l j := by
  induction l with
  | nil => simp [setIdx, lookupIdx, List.find?, Ne.symm h]
  | cons p t ih =>
      obtain ⟨k, f⟩ := p
      by_cases hk : k = i
      · subst hk
        simp [setIdx, lookupIdx, List.find?, Ne.symm h]
      · simp only [setIdx, if_neg hk]
        by_cases hkj : k = j
        · simp [lookupIdx, List.find?, hkj]
        · simpa [lookupIdx, List.find?, hkj] using ih

theorem lookupIdx_append_of_some (l l2 : List (Nat × ToolCallEntry)) (i : Nat)
    (e : ToolCallEntry) (h : lookupIdx l i = some e) :
    lookupIdx (l ++ l2) i = some e := by
  induction l with
  | nil => simp [lookupIdx, List.find?] at h
  | cons p t ih =>
      obtain ⟨k, f⟩ := p
      by_cases hk : k = i
      · simpa [lookupIdx, List.find?, hk] using h
      · simp only [List.cons_append]
        rw [show lookupIdx ((k, f) :: t) i = lookupIdx t i by
          simp [lookupIdx, List.find?, hk]] at h
        rw [show lookupIdx ((k, f) :: (t ++ l2)) i = lookupIdx (t ++ l2) i by
          simp [lookupIdx, List.find?, hk]]
        exact ih h

/-! ### Claim C2 — registry initialization rollback -/

theorem initManager_spec (l : List BackendCfg) (st : ManagerState) :
    (initManager l st).1.closedResources = st.closedResources ∧
    (initManager l st).1.sessions = st.sessions ++
      (l.takeWhile (fun b => b.initOk)).map (fun b => (b.name, "session:" ++ b.name)) ∧
    (initManager l st).2 =
      (if l.all (fun b => b.initOk) then none else some PyErr.connectionError) := by
  induction l generalizing st with
  | nil => simp [initManager]
  | cons b rest ih =>
      by_cases h : b.initOk
      · obtain ⟨ih1, ih2, ih3⟩ := ih
          { st with
            sessions := st.sessions ++ [(b.name, "session:" ++ b.name)],
            openedResources :=
              st.openedResources ++ [b.name ++ ":transport", b.name ++ ":session"] }
        refine ⟨?_, ?_, ?_⟩
        · simpa [initManager, h] using ih1
        · simpa [initManager, h, List.takeWhile_cons] using ih2
        · simpa [initManager, h] using ih3
      · simp [initManager, h, List.takeWhile_cons]

/-- **C2, counterexample.** The claim: a failed `initialize()` closes every
session it already opened before surfacing the failure. In the source
(`client_manager.py` lines 114-142) the `except` block only logs and
re-raises. Concretely, with two SSE backends where `a` connects and `b`
fails, the error is surfaced while `a`'s session is still registered,
its transport and session contexts are still open on the exit stack, and
nothing has been closed. -/
theorem c2_counterexample :
    (initializeManager [] [⟨"a", true⟩, ⟨"b", false⟩]).2 = some PyErr.connectionError ∧
    (initializeManager [] [⟨"a", true⟩, ⟨"b", false⟩]).1.sessions = [("a", "session:a")] ∧
    (initializeManager [] [⟨"a", true⟩, ⟨"b", false⟩]).1.openedResources ≠ [] ∧
    (initializeManager [] [⟨"a", true⟩, ⟨"b", false⟩]).1.closedResources = [] := by
  refine ⟨rfl, rfl, ?_, rfl⟩
  decide

/-- **C2, amended.** If establishing any one backend session during
`initialize()` fails, the failure is surfaced (re-raised), but the
registry does NOT close the sessions already opened during that call:
nothing is closed, and exactly the sessions of the backends preceding the
first failing backend (stdio backends first, then SSE, in configured
order) remain registered until `close()` is called separately. -/
theorem c2_amended : ∀ stdio sse : List BackendCfg,
    (initializeManager stdio sse).1.closedResources = [] ∧
    (initializeManager stdio sse).1.sessions.map (fun p => p.1) =
      ((stdio ++ sse).takeWhile (fun b => b.initOk)).map (fun b => b.name) ∧
    (initializeManager stdio sse).2 =
      (if (stdio ++ sse).all (fun b => b.initOk) then none
       else some PyErr.connectionError) := by
  intro stdio sse
  obtain ⟨h1, h2, h3⟩ := initManager_spec (stdio ++ sse) ⟨[], [], []⟩
  refine ⟨h1, ?_, h3⟩
  simp only [initializeManager] at *
  simp [h2]

/-! ### Claim C4 — orphan Anthropic deltas -/

theorem anthProcessStream_out_aux (chunks : List AnthEvent) (st : AnthAccState)
    (acc : List (OutChunk AnthEvent)) :
    (chunks.foldl (fun a c => (anthChunkStep a.1 c, a.2 ++ [.passthrough c])) (st, acc)).2 =
      acc ++ chunks.map OutChunk.passthrough := by
  induction chunks generalizing st acc with
  | nil => simp
  | cons c rest ih => simp [ih]

/-- **C4, counterexample.** The claim: an `input_json_delta` arriving with
no open tool accumulation is surfaced as an error event. In the source
(`chat.py` lines 431-436) the guard `current_tool_index is not None and
current_tool_index in final_tool_calls` simply skips the update: the
stream consisting of one orphan delta produces an unchanged (empty)
accumulator and an output containing only the passthrough of that chunk —
no synthetic error event of any kind. -/
theorem c4_counterexample :
    anthProcessStream [.contentBlockDelta ("input_json_delta") ("xy")] =
      (anthAccInit, [.passthrough (.contentBlockDelta ("input_json_delta") ("xy"))]) :=
  rfl

/-- **C4, amended.** A partial-structured-fragment delta arriving while no
tool accumulation is open is silently dropped: the accumulator state is
unchanged, and the accumulation loop emits only passthrough chunks (it
never synthesizes an error event), so the run continues without crashing
but without surfacing any protocol violation. -/
theorem c4_amended :
    (∀ (st : AnthAccState) (frag : String), st.current_tool_index = none →
      anthChunkStep st (.contentBlockDelta ("input_json_delta") frag) = st) ∧
    (∀ chunks : List AnthEvent,
      (anthProcessStream chunks).2 = chunks.map OutChunk.passthrough) := by
  constructor
  · intro st frag h
    simp [anthChunkStep, h]
  · intro chunks
    simpa [anthProcessStream] using anthProcessStream_out_aux chunks anthAccInit []

theorem c4_amended_witness :
    anthChunkStep anthAccInit (.contentBlockDelta ("input_json_delta") ("xy")) =
        anthAccInit ∧
    (anthProcessStream [.otherEvent ("ping")]).2 = [.passthrough (.otherEvent ("ping"))] :=
  ⟨c4_amended.1 anthAccInit ("xy") rfl, by simpa using c4_amended.2 [.otherEvent ("ping")]⟩

/-! ### Claim C6 — dialect-A accumulator merge semantics -/

/-- **C6, counterexample.** The claim: an entry's `name` is set at most
once, the first non-empty streamed name winning. In the source (`chat.py`
line 214) a later non-empty name fragment overwrites: streaming two
deltas for index 0 whose names are `a` then `b` leaves the entry's name
`b`, not the first non-empty value `a`. -/
theorem c6_counterexample :
    lookupIdx (([⟨0, "", "a", ""⟩, ⟨0, "", "b", ""⟩] : List ToolCallDelta).foldl
        openaiDeltaStep openaiAccInit).final_tool_calls 0 =
      some ⟨"call_0", "function", "b", ""⟩ ∧
    (⟨"call_0", "function", "b", ""⟩ : ToolCallEntry).name ≠ "a" := by
  exact ⟨rfl, by decide⟩

/-- **C6, amended.** For an existing accumulator entry, a delta merges as
follows: the `name` is overwritten by each non-empty streamed name
fragment (so the LAST non-empty fragment wins; an empty fragment leaves
it alone), while `argumentsText` only ever grows by appending the
streamed fragment — and across any whole chunk stream an existing entry's
`argumentsText` only ever gains a suffix. -/
theorem c6_amended :
    (∀ (st : OpenAIAccState) (d : ToolCallDelta) (e : ToolCallEntry),
      lookupIdx st.final_tool_calls d.index = some e →
      lookupIdx (openaiDeltaStep st d).final_tool_calls d.index =
        some { id := e.id, type := e.type,
               name := if d.name = "" then e.name else d.name,
               arguments := e.arguments ++ d.arguments }) ∧
    (∀ (cs : List OpenAIChunk) (st : OpenAIAccState) (i : Nat) (e : ToolCallEntry),
      lookupIdx st.final_tool_calls i = some e →
      ∃ (e2 : ToolCallEntry) (suffix : String),
        lookupIdx (cs.foldl openaiChunkStep st).final_tool_calls i = some e2 ∧
        e2.arguments = e.arguments ++ suffix) := by
  have step : ∀ (st : OpenAIAccState) (d : ToolCallDelta) (e : ToolCallEntry),
      lookupIdx st.final_tool_calls d.index = some e →
      lookupIdx (openaiDeltaStep st d).final_tool_calls d.index =
        some { id := e.id, type := e.type,
               name := if d.name = "" then e.name else d.name,
               arguments := e.arguments ++ d.arguments } := by
    intro st d e h
    simp only [openaiDeltaStep, h]
    rw [lookupIdx_setIdx_self]
    by_cases hn : d.name = "" <;> by_cases ha : d.arguments = "" <;>
      simp [hn, ha, String.append_empty]
  have deltaMono : ∀ (st : OpenAIAccState) (d : ToolCallDelta) (i : Nat) (e : ToolCallEntry),
      lookupIdx st.final_tool_calls i = some e →
      ∃ (e2 : ToolCallEntry) (suffix : String),
        lookupIdx (openaiDeltaStep st d).final_tool_calls i = some e2 ∧
        e2.arguments = e.arguments ++ suffix := by
    intro st d i e h
    by_cases hi : d.index = i
    · subst hi
      refine ⟨_, if d.arguments = "" then "" else d.arguments, step st d e h, ?_⟩
      by_cases ha : d.arguments = "" <;> simp [ha]
    · cases hd : lookupIdx st.final_tool_calls d.index with
      | none =>
          refine ⟨e, "", ?_, by rw [String.append_empty]⟩
          simpa [openaiDeltaStep, hd] using lookupIdx_append_of_some _ _ i e h
      | some f =>
          refine ⟨e, "", ?_, by rw [String.append_empty]⟩
          simp only [openaiDeltaStep, hd]
          rw [lookupIdx_setIdx_ne _ _ _ _ (fun hh => hi hh.symm)]
          exact h
  have deltasMono : ∀ (ds : List ToolCallDelta) (st : OpenAIAccState) (i : Nat)
      (e : ToolCallEntry), lookupIdx st.final_tool_calls i = some e →
      ∃ (e2 : ToolCallEntry) (suffix : String),
        lookupIdx (ds.foldl openaiDeltaStep st).final_tool_calls i = some e2 ∧
        e2.arguments = e.arguments ++ suffix := by
    intro ds
    induction ds with
    | nil => intro st i e h; exact ⟨e, "", by simpa [String.append_empty] using h, by
        rw [String.append_empty]⟩
    | cons d rest ih =>
        intro st i e h
        obtain ⟨e1, s1, h1, hs1⟩ := deltaMono st d i e h
        obtain ⟨e2, s2, h2, hs2⟩ := ih (openaiDeltaStep st d) i e1 h1
        exact ⟨e2, s1 ++ s2, by simpa using h2, by
          rw [hs2, hs1, String.append_assoc]⟩
  refine ⟨step, ?_⟩
  intro cs
  induction cs with
  | nil => intro st i e h; exact ⟨e, "", by simpa using h, by rw [String.append_empty]⟩
  | cons c rest ih =>
      intro st i e h
      obtain ⟨e1, s1, h1, hs1⟩ := deltasMono c.tool_calls st i e h
      have hstep : lookupIdx (openaiChunkStep st c).final_tool_calls i = some e1 := by
        simp only [openaiChunkStep]
        by_cases hc : c.content = "" <;> simp [hc, h1]
      obtain ⟨e2, s2, h2, hs2⟩ := ih (openaiChunkStep st c) i e1 hstep
      exact ⟨e2, s1 ++ s2, h2, by rw [hs2, hs1, String.append_assoc]⟩

/-! ### Claims C5 and C10 — the routing table built by `list_tools` -/

theorem lookupStr_cons {α : Type} (a : String) (b : α) (t : List (String × α)) (k : String) :
    lookupStr ((a, b) :: t) k = if a = k then some b else lookupStr t k := by
  by_cases h : a = k <;> simp [lookupStr, List.find?, h]

theorem hasKeyStr_eq_isSome {α : Type} (l : List (String × α)) (k : String) :
    hasKeyStr l k = (lookupStr l k).isSome := by
  induction l with
  | nil => simp [hasKeyStr, lookupStr]
  | cons p t ih =>
      obtain ⟨a, b⟩ := p
      by_cases h : a = k
      · simp [hasKeyStr, lookupStr_cons, h]
      · simp only [hasKeyStr, List.any_cons, lookupStr_cons, if_neg h,
          decide_eq_true_eq, h, Bool.false_or]
        exact ih

theorem hasKeyStr_iff_mem {α : Type} (l : List (String × α)) (k : String) :
    hasKeyStr l k = true ↔ k ∈ l.map Prod.fst := by
  simp only [hasKeyStr, List.any_eq_true, List.mem_map, decide_eq_true_eq]

theorem lookupStr_append_some {α : Type} (l1 l2 : List (String × α)) (k : String) (v : α)
    (h : lookupStr l1 k = some v) : lookupStr (l1 ++ l2) k = some v := by
  induction l1 with
  | nil => simp [lookupStr, List.find?] at h
  | cons p t ih =>
      obtain ⟨a, b⟩ := p
      by_cases ha : a = k
      · simpa [lookupStr_cons, ha] using h
      · rw [lookupStr_cons, if_neg ha] at h
        simpa [lookupStr_cons, ha] using ih h

theorem lookupStr_append_none {α : Type} (l1 l2 : List (String × α)) (k : String)
    (h : lookupStr l1 k = none) : lookupStr (l1 ++ l2) k = lookupStr l2 k := by
  induction l1 with
  | nil => simp
  | cons p t ih =>
      obtain ⟨a, b⟩ := p
      by_cases ha : a = k
      · rw [lookupStr_cons, if_pos ha] at h
        exact absurd h (by simp)
      · rw [lookupStr_cons, if_neg ha] at h
        simpa [lookupStr_cons, ha] using ih h

theorem registerTools_lookup (server : String) (tools : List ToolDescr)
    (tm : List (String × String)) (ct : List ToolDescr) (name : String) :
    lookupStr (registerTools server tools (tm, ct)).1 name =
      (match lookupStr tm name with
       | some s => some s
       | none => if tools.any (fun t => t.name = name) then some server else none) := by
  induction tools generalizing tm ct with
  | nil => cases h : lookupStr tm name <;> simp [registerTools, h]
  | cons t rest ih =>
      by_cases h : hasKeyStr tm t.name
      · simp only [registerTools, h, if_pos]
        rw [ih]
        cases hl : lookupStr tm name with
        | some s => simp
        | none =>
            have hne : ¬(t.name = name) := by
              intro hh
              rw [hh, hasKeyStr_eq_isSome, hl] at h
              simp at h
            simp [List.any_cons, hne]
      · simp only [registerTools, h, if_neg, Bool.not_eq_true]
        rw [ih]
        have hl0 : lookupStr tm t.name = none := by
          rw [hasKeyStr_eq_isSome] at h
          cases hl : lookupStr tm t.name
          · rfl
          · rw [hl] at h; simp at h
        by_cases hn : t.name = name
        · subst hn
          rw [lookupStr_append_none _ _ _ hl0, lookupStr_cons]
          simp [hl0, List.any_cons]
        · cases hl : lookupStr tm name with
          | some s => rw [lookupStr_append_some _ _ _ _ hl]
          | none =>
              rw [lookupStr_append_none _ _ _ hl, lookupStr_cons, if_neg hn]
              simp [lookupStr, List.find?, List.any_cons, hn]

theorem registerTools_nodup (server : String) (tools : List ToolDescr)
    (tm : List (String × String)) (ct : List ToolDescr)
    (h : (tm.map Prod.fst).Nodup) :
    ((registerTools server tools (tm, ct)).1.map Prod.fst).Nodup := by
  induction tools generalizing tm ct with
  | nil => simpa [registerTools] using h
  | cons t rest ih =>
      by_cases hk : hasKeyStr tm t.name
      · simpa [registerTools, hk] using ih tm ct h
      · simp only [registerTools, hk, if_neg, Bool.not_eq_true]
        refine ih _ _ ?_
        have hmem : t.name ∉ tm.map Prod.fst := by
          intro hm
          exact hk ((hasKeyStr_iff_mem tm t.name).mpr hm)
        simp [List.nodup_append, h, hmem]

theorem registerTools_names (server : String) (tools : List ToolDescr)
    (tm : List (String × String)) (ct : List ToolDescr)
    (h : ct.map (fun t => t.name) = tm.map Prod.fst) :
    (registerTools server tools (tm, ct)).2.map (fun t => t.name) =
      (registerTools server tools (tm, ct)).1.map Prod.fst := by
  induction tools generalizing tm ct with
  | nil => simpa [registerTools] using h
  | cons t rest ih =>
      by_cases hk : hasKeyStr tm t.name
      · simpa [registerTools, hk] using ih tm ct h
      · simp only [registerTools, hk, if_neg, Bool.not_eq_true]
        exact ih _ _ (by simp [h])

theorem firstRegisteredOwner_cons (server : String) (beh : SessionBeh)
    (rest : List (String × SessionBeh)) (name : String) :
    firstRegisteredOwner ((server, beh) :: rest) name =
      (if beh.tools.any (fun t => t.name = name) then some server
       else firstRegisteredOwner rest name) := by
  by_cases h : beh.tools.any (fun t => t.name = name) <;>
    simp [firstRegisteredOwner, List.find?, h]

theorem listToolsFrom_lookup (sessions : List (String × SessionBeh))
    (tm : List (String × String)) (ct : List ToolDescr) (name : String) :
    lookupStr (listToolsFrom sessions (tm, ct)).1 name =
      (match lookupStr tm name with
       | some s => some s
       | none => firstRegisteredOwner sessions name) := by
  induction sessions generalizing tm ct with
  | nil => cases h : lookupStr tm name <;> simp [listToolsFrom, firstRegisteredOwner, h]
  | cons s rest ih =>
      obtain ⟨server, beh⟩ := s
      show lookupStr (listToolsFrom rest (registerTools server beh.tools (tm, ct))).1 name = _
      rw [show registerTools server beh.tools (tm, ct) =
            ((registerTools server beh.tools (tm, ct)).1,
             (registerTools server beh.tools (tm, ct)).2) from rfl,
          ih, registerTools_lookup, firstRegisteredOwner_cons]
      cases h : lookupStr tm name with
      | some v => simp
      | none => by_cases ha : beh.tools.any (fun t => t.name = name) <;> simp [ha]

theorem listToolsFrom_nodup (sessions : List (String × SessionBeh))
    (tm : List (String × String)) (ct : List ToolDescr)
    (h : (tm.map Prod.fst).Nodup) :
    ((listToolsFrom sessions (tm, ct)).1.map Prod.fst).Nodup := by
  induction sessions generalizing tm ct with
  | nil => simpa [listToolsFrom] using h
  | cons s rest ih =>
      obtain ⟨server, beh⟩ := s
      show (((listToolsFrom rest (registerTools server beh.tools (tm, ct))).1.map
        Prod.fst)).Nodup
      rw [show registerTools server beh.tools (tm, ct) =
            ((registerTools server beh.tools (tm, ct)).1,
             (registerTools server beh.tools (tm, ct)).2) from rfl]
      exact ih _ _ (registerTools_nodup server beh.tools tm ct h)

theorem listToolsFrom_names (sessions : List (String × SessionBeh))
    (tm : List (String × String)) (ct : List ToolDescr)
    (h : ct.map (fun t => t.name) = tm.map Prod.fst) :
    (listToolsFrom sessions (tm, ct)).2.map (fun t => t.name) =
      (listToolsFrom sessions (tm, ct)).1.map Prod.fst := by
  induction sessions generalizing tm ct with
  | nil => simpa [listToolsFrom] using h
  | cons s rest ih =>
      obtain ⟨server, beh⟩ := s
      show (listToolsFrom rest (registerTools server beh.tools (tm, ct))).2.map _ = _
      rw [show registerTools server beh.tools (tm, ct) =
            ((registerTools server beh.tools (tm, ct)).1,
             (registerTools server beh.tools (tm, ct)).2) from rfl]
      exact ih _ _ (registerTools_names server beh.tools tm ct h)

/-- **C5.** For every collection of sessions (whatever overlap their tool
listings have), the routing table built by `list_tools` contains each
registered name exactly once (its key list has no duplicates), and the
owner recorded for any name is exactly the earliest-registering session
in iteration order whose listing contains that name — so a name listed by
a later session after an earlier registration resolves to the earlier
session, the later occurrence having been dropped without error. -/
theorem c5_first_registration_wins : ∀ sessions : List (String × SessionBeh),
    ((list_tools sessions).1.map Prod.fst).Nodup ∧
    ∀ name, lookupStr (list_tools sessions).1 name = firstRegisteredOwner sessions name := by
  intro sessions
  constructor
  · exact listToolsFrom_nodup sessions [] [] (by simp)
  · intro name
    simpa [list_tools] using listToolsFrom_lookup sessions [] [] name

/-- **C10.** `list_tools` always returns a consistent pair: the names of
the returned tool descriptors, in order, are exactly the keys of the
returned routing table, and those keys have no duplicates — every
advertised tool is routable and every routable name is advertised, each
exactly once. -/
theorem c10_listing_matches_routing : ∀ sessions : List (String × SessionBeh),
    (list_tools sessions).2.map (fun t => t.name) =
      (list_tools sessions).1.map Prod.fst ∧
    ((list_tools sessions).1.map Prod.fst).Nodup := by
  intro sessions
  constructor
  · exact listToolsFrom_names sessions [] [] (by simp)
  · exact listToolsFrom_nodup sessions [] [] (by simp)

theorem c6_amended_witness :
    lookupIdx (openaiDeltaStep ⟨[(0, ⟨"id0", "function", "a", "x"⟩)], 1, ""⟩
        ⟨0, "", "b", "y"⟩).final_tool_calls 0 =
      some ⟨"id0", "function", "b", "xy"⟩ ∧
    (∃ (e2 : ToolCallEntry) (suffix : String),
      lookupIdx (([] : List OpenAIChunk).foldl openaiChunkStep
          ⟨[(0, ⟨"id0", "function", "a", "x"⟩)], 1, ""⟩).final_tool_calls 0 = some e2 ∧
      e2.arguments = "x" ++ suffix) :=
  ⟨c6_amended.1 ⟨[(0, ⟨"id0", "function", "a", "x"⟩)], 1, ""⟩ ⟨0, "", "b", "y"⟩
      ⟨"id0", "function", "a", "x"⟩ rfl,
   c6_amended.2 [] ⟨[(0, ⟨"id0", "function", "a", "x"⟩)], 1, ""⟩ 0
      ⟨"id0", "function", "a", "x"⟩ rfl⟩

/-! ### Claim C7 — routing miss is non-fatal -/

theorem create_tool_result_message_openai (id obs : String) :
    create_tool_result_message id obs ("openai") = .toolResult id obs := by
  simp only [create_tool_result_message]
  rw [if_neg (by decide)]

/-- **C7.** Invoking a tool whose name is absent from the routing table
does not raise: `call_tool` returns the `None` not-found signal
(`client_manager.py` lines 179-182); the orchestrator turn still
processes the accumulated call, appending a tool-result message whose
content is `str(None)` — the string `None`, the rendering of the
not-found signal — and the run proceeds to the follow-up model call and
continues the loop rather than terminating (`chat.py` lines 114-121,
240-261). Stated for a turn whose model response streams one tool-call
delta with a provider-assigned id and parseable arguments. -/
theorem c7_tool_not_found :
    ∀ (env : ChatEnv) (oracle : Nat → List OpenAIChunk) (st : RunState OpenAIChunk)
      (d : ToolCallDelta) (args : JsonVal),
      oracle st.modelCalls = [⟨[d], ""⟩] →
      d.id ≠ "" →
      env.jsonParse d.arguments = some args →
      lookupStr env.tool_map d.name = none →
      call_tool d.name args env.tool_map env.sessions = none ∧
      (runOneTurn env oracle st).2 = true ∧
      (runOneTurn env oracle st).1.modelCalls = st.modelCalls + 2 ∧
      (runOneTurn env oracle st).1.errored = st.errored ∧
      (runOneTurn env oracle st).1.chat_messages = st.chat_messages ++
        [.assistantToolCalls [⟨d.id, "function", d.name, d.arguments⟩],
         .toolResult d.id ("None")] := by
  intro env oracle st d args ho hid hp hmap
  have hcall : call_tool d.name args env.tool_map env.sessions = none := by
    simp [call_tool, hmap]
  refine ⟨hcall, ?_⟩
  have hloop : toolCallLoop env.jsonParse env.sessions env.tool_map ("openai")
      [⟨d.id, "function", d.name, d.arguments⟩] (st.chat_messages ++
        [.assistantToolCalls [⟨d.id, "function", d.name, d.arguments⟩]]) =
      ⟨[create_llm_chunk .progress ("Executing tool: " ++ d.name ++ "...") ("openai"),
        create_llm_chunk .progress ("Tool " ++ d.name ++ " execution complete.") ("openai"),
        create_llm_chunk .progress ("All tools executed successfully.") ("openai")],
       st.chat_messages ++ [.assistantToolCalls [⟨d.id, "function", d.name, d.arguments⟩],
         .toolResult d.id ("None")],
       [(d.name, args)], none⟩ := by
    simp only [toolCallLoop, hp, hcall, create_tool_result_message_openai, pyStrOfObs]
    simp
  by_cases h0 : st.turnsUsed = 0 <;>
    simp only [runOneTurn, h0, if_true, if_false, ho] <;>
    simp [openaiChunkStep, openaiDeltaStep, openaiAccInit, lookupIdx, List.find?,
      if_neg hid, process_tool_calls, convert_to_openai_tool_format, hloop]

theorem c7_tool_not_found_witness :
    call_tool ("nope") (.jobj []) sampleEnv.tool_map sampleEnv.sessions = none ∧
    (runOneTurn sampleEnv (fun _ => [⟨[⟨0, "id0", "nope", "{}"⟩], ""⟩])
        ⟨[], 0, 0, [], [], none⟩).2 = true ∧
    (runOneTurn sampleEnv (fun _ => [⟨[⟨0, "id0", "nope", "{}"⟩], ""⟩])
        ⟨[], 0, 0, [], [], none⟩).1.modelCalls = 0 + 2 ∧
    (runOneTurn sampleEnv (fun _ => [⟨[⟨0, "id0", "nope", "{}"⟩], ""⟩])
        ⟨[], 0, 0, [], [], none⟩).1.errored = none ∧
    (runOneTurn sampleEnv (fun _ => [⟨[⟨0, "id0", "nope", "{}"⟩], ""⟩])
        ⟨[], 0, 0, [], [], none⟩).1.chat_messages = [] ++
      [.assistantToolCalls [⟨"id0", "function", "nope", "{}"⟩],
       .toolResult ("id0") ("None")] :=
  c7_tool_not_found sampleEnv (fun _ => [⟨[⟨0, "id0", "nope", "{}"⟩], ""⟩])
    ⟨[], 0, 0, [], [], none⟩ ⟨0, "id0", "nope", "{}"⟩ (.jobj [])
    rfl (by decide) rfl rfl

/-! ### Claim C3 — a malformed-arguments entry aborts the whole turn -/

/-- **C3, counterexample.** The claim: a parse failure of one entry's
`argumentsText` is contained to that entry, while the other accumulated
entries are still invoked and the output stream does not end. In the
source, `json.loads` (`chat.py` line 108) raises out of the generator, so
with a response carrying entry 0 (malformed `oops`) and entry 1
(well-formed `{}` naming the existing tool `t`), NO entry is invoked —
not even the well-formed one — the run records the decode error, makes no
follow-up model call, and the output stream ends with a terminal ERROR
chunk. -/
theorem c3_counterexample :
    (process_openai_stream_chat sampleEnv (fun _ => [sampleBadChunk]) [] 3).invoked = [] ∧
    (process_openai_stream_chat sampleEnv (fun _ => [sampleBadChunk]) [] 3).errored =
      some PyErr.jsonDecodeError ∧
    (process_openai_stream_chat sampleEnv (fun _ => [sampleBadChunk]) [] 3).modelCalls = 1 ∧
    (process_openai_stream_chat sampleEnv (fun _ => [sampleBadChunk]) [] 3).out.getLast? =
      some (.synthetic ⟨.error, "Error: JSONDecodeError", "openai"⟩) :=
  ⟨rfl, rfl, rfl, rfl⟩

theorem getLast?_cons_concat {α : Type} (b x : α) (m : List α) :
    (b :: (m ++ [x])).getLast? = some x := by
  rw [show b :: (m ++ [x]) = (b :: m) ++ [x] by simp]
  exact List.getLast?_concat _

theorem getLast?_cons_append_cons_concat {α : Type} (a b x : α) (l m : List α) :
    (a :: (l ++ b :: (m ++ [x]))).getLast? = some x := by
  rw [show a :: (l ++ b :: (m ++ [x])) = (a :: (l ++ b :: m)) ++ [x] by simp]
  exact List.getLast?_concat _

/-- **C3, amended.** When one accumulated entry's `argumentsText` fails to
parse, the failure aborts the whole tool loop, not just that entry: the
entries before it in encounter order have already been invoked, the
failing entry and every later entry are never invoked, the raised decode
error reaches the orchestration boundary, and the turn ends the stream
with one terminal ERROR chunk and no follow-up model call. -/
theorem c3_amended :
    (∀ (jsonParse : String → Option JsonVal) (sessions : List (String × SessionBeh))
      (tool_map : List (String × String)) (provider : String)
      (pre : List ToolCallEntry) (bad : ToolCallEntry) (post : List ToolCallEntry)
      (msgs : List Message),
      (∀ e ∈ pre, (jsonParse e.arguments).isSome) →
      jsonParse bad.arguments = none →
      (toolCallLoop jsonParse sessions tool_map provider (pre ++ bad :: post) msgs).err =
          some PyErr.jsonDecodeError ∧
      (toolCallLoop jsonParse sessions tool_map provider
        (pre ++ bad :: post) msgs).invoked.length = pre.length) ∧
    (∀ (env : ChatEnv) (oracle : Nat → List OpenAIChunk) (st : RunState OpenAIChunk)
      (e : PyErr),
      st.errored = none →
      (runOneTurn env oracle st).1.errored = some e →
      (runOneTurn env oracle st).2 = false ∧
      (runOneTurn env oracle st).1.out.getLast? =
        some (.synthetic (create_llm_chunk .error ("Error: " ++ pyErrStr e) ("openai")))) := by
  constructor
  · intro jsonParse sessions tool_map provider pre bad post msgs hpre hbad
    revert hpre
    induction pre generalizing msgs with
    | nil => intro _; simp [toolCallLoop, hbad]
    | cons e rest ih =>
        intro hpre
        obtain ⟨args, ha⟩ := Option.isSome_iff_exists.mp (hpre e (by simp))
        have hrest : ∀ x ∈ rest, (jsonParse x.arguments).isSome := by
          intro x hx; exact hpre x (by simp [hx])
        obtain ⟨ih1, ih2⟩ := ih
          (msgs ++ [create_tool_result_message e.id
            (pyStrOfObs (call_tool e.name args tool_map sessions)) provider]) hrest
        constructor
        · simpa [toolCallLoop, ha] using ih1
        · simpa [toolCallLoop, ha] using ih2
  · intro env oracle st e h0 herr
    by_cases ht : st.turnsUsed = 0
    · simp only [runOneTurn, ht, if_true] at herr ⊢
      split at herr
      · split at herr <;> simp_all
      · split at herr <;>
          simp_all [List.getLast?_concat, getLast?_cons_concat,
            getLast?_cons_append_cons_concat]
    · simp only [runOneTurn, ht, if_false] at herr ⊢
      split at herr
      · split at herr <;> simp_all
      · split at herr <;>
          simp_all [List.getLast?_concat, getLast?_cons_concat,
            getLast?_cons_append_cons_concat]

theorem c3_amended_witness :
    ((toolCallLoop sampleParse sampleEnv.sessions sampleEnv.tool_map ("openai")
        ([] ++ ⟨"id0", "function", "t", "oops"⟩ :: [⟨"id1", "function", "t", "{}"⟩])
        []).err = some PyErr.jsonDecodeError ∧
      (toolCallLoop sampleParse sampleEnv.sessions sampleEnv.tool_map ("openai")
        ([] ++ ⟨"id0", "function", "t", "oops"⟩ :: [⟨"id1", "function", "t", "{}"⟩])
        []).invoked.length = ([] : List ToolCallEntry).length) ∧
    ((runOneTurn sampleEnv (fun _ => [sampleBadChunk]) ⟨[], 0, 0, [], [], none⟩).2 =
        false ∧
      (runOneTurn sampleEnv (fun _ => [sampleBadChunk])
          ⟨[], 0, 0, [], [], none⟩).1.out.getLast? =
        some (.synthetic (create_llm_chunk .error
          ("Error: " ++ pyErrStr .jsonDecodeError) ("openai")))) :=
  ⟨c3_amended.1 sampleParse sampleEnv.sessions sampleEnv.tool_map ("openai")
      [] ⟨"id0", "function", "t", "oops"⟩ [⟨"id1", "function", "t", "{}"⟩] []
      (by intro e he; simp at he) rfl,
   c3_amended.2 sampleEnv (fun _ => [sampleBadChunk]) ⟨[], 0, 0, [], [], none⟩
      .jsonDecodeError rfl rfl⟩

/-! ### Claim C1 — the `maxTurns` ceiling -/

theorem runOneTurn_counts (env : ChatEnv) (oracle : Nat → List OpenAIChunk)
    (st : RunState OpenAIChunk) :
    (runOneTurn env oracle st).1.turnsUsed = st.turnsUsed + 1 ∧
    (runOneTurn env oracle st).1.modelCalls ≤ st.modelCalls + 2 := by
  by_cases ht : st.turnsUsed = 0 <;>
    simp only [runOneTurn, ht, if_true, if_false] <;>
    · refine ⟨?_, ?_⟩ <;>
      · repeat' split
        all_goals simp

theorem runOneTurnAnth_counts (env : ChatEnv) (oracle : Nat → List AnthEvent)
    (st : RunState AnthEvent) :
    (runOneTurnAnth env oracle st).1.turnsUsed = st.turnsUsed + 1 ∧
    (runOneTurnAnth env oracle st).1.modelCalls ≤ st.modelCalls + 2 := by
  by_cases ht : st.turnsUsed = 0 <;>
    simp only [runOneTurnAnth, ht, if_true, if_false] <;>
    · refine ⟨?_, ?_⟩ <;>
      · repeat' split
        all_goals simp

theorem runTurns_bound (env : ChatEnv) (oracle : Nat → List OpenAIChunk) :
    ∀ (n : Nat) (st : RunState OpenAIChunk),
      (runTurns env oracle n st).turnsUsed ≤ st.turnsUsed + n ∧
      (runTurns env oracle n st).modelCalls ≤ st.modelCalls + 2 * n := by
  intro n
  induction n with
  | zero => intro st; simp [runTurns]
  | succ n ih =>
      intro st
      obtain ⟨h1, h2⟩ := runOneTurn_counts env oracle st
      simp only [runTurns]
      by_cases hc : (runOneTurn env oracle st).2 = true
      · rw [if_pos hc]
        obtain ⟨g1, g2⟩ := ih (runOneTurn env oracle st).1
        constructor <;> omega
      · rw [if_neg hc]
        constructor <;> omega

theorem runTurnsAnth_bound (env : ChatEnv) (oracle : Nat → List AnthEvent) :
    ∀ (n : Nat) (st : RunState AnthEvent),
      (runTurnsAnth env oracle n st).turnsUsed ≤ st.turnsUsed + n ∧
      (runTurnsAnth env oracle n st).modelCalls ≤ st.modelCalls + 2 * n := by
  intro n
  induction n with
  | zero => intro st; simp [runTurnsAnth]
  | succ n ih =>
      intro st
      obtain ⟨h1, h2⟩ := runOneTurnAnth_counts env oracle st
      simp only [runTurnsAnth]
      by_cases hc : (runOneTurnAnth env oracle st).2 = true
      · rw [if_pos hc]
        obtain ⟨g1, g2⟩ := ih (runOneTurnAnth env oracle st).1
        constructor <;> omega
      · rw [if_neg hc]
        constructor <;> omega

/-- **C1, counterexample.** The claim: with `maxTurns = 1` and a model
that always requests a tool call, the run terminates after exactly one
model call with no tool execution. In the source the loop body executes
the accumulated tool calls and issues a follow-up model call within the
same (single) permitted iteration (`chat.py` lines 230-261): the run
below makes TWO model calls and executes the requested tool once, without
error. -/
theorem c1_counterexample :
    (process_openai_stream_chat sampleEnv (fun _ => [sampleToolChunk]) [] 1).modelCalls
        = 2 ∧
    (process_openai_stream_chat sampleEnv (fun _ => [sampleToolChunk]) [] 1).invoked =
      [("t", .jobj [])] ∧
    (process_openai_stream_chat sampleEnv (fun _ => [sampleToolChunk]) [] 1).errored =
      none :=
  ⟨rfl, rfl, rfl⟩

/-- **C1, amended.** Each orchestrator run performs at most `maxTurns`
iterations of the MODEL_CALL → tool-check cycle, and hence at most
`2 · maxTurns` model calls (each iteration makes one primary call plus at
most one follow-up call); but an iteration that accumulates tool calls
executes those tools and makes its follow-up call even on the final
permitted iteration — so with `maxTurns = 1` and an always-tool-requesting
model the run makes two model calls and executes the requested tool, and
only tool requests arriving in a follow-up response go unexecuted. Both
the OpenAI and the Anthropic loop satisfy the bounds. -/
theorem c1_amended :
    ∀ (env : ChatEnv) (messages : List Message) (max_turns : Nat),
      (∀ oracle : Nat → List OpenAIChunk,
        (process_openai_stream_chat env oracle messages max_turns).turnsUsed ≤
          max_turns ∧
        (process_openai_stream_chat env oracle messages max_turns).modelCalls ≤
          2 * max_turns) ∧
      (∀ oracle : Nat → List AnthEvent,
        (process_anthropic_stream_chat env oracle messages max_turns).turnsUsed ≤
          max_turns ∧
        (process_anthropic_stream_chat env oracle messages max_turns).modelCalls ≤
          2 * max_turns) := by
  intro env messages max_turns
  constructor
  · intro oracle
    obtain ⟨h1, h2⟩ := runTurns_bound env oracle max_turns
      { chat_messages := messages, modelCalls := 0, turnsUsed := 0,
        out := [.synthetic (create_llm_chunk .progress
          ("Warming up the thinking engine...") ("openai"))],
        invoked := [], errored := none }
    exact ⟨by simpa [process_openai_stream_chat] using h1,
           by simpa [process_openai_stream_chat] using h2⟩
  · intro oracle
    obtain ⟨h1, h2⟩ := runTurnsAnth_bound env oracle max_turns
      { chat_messages := messages, modelCalls := 0, turnsUsed := 0,
        out := [.synthetic (create_llm_chunk .progress
          ("Warming up the thinking engine...") ("anthropic"))],
        invoked := [], errored := none }
    exact ⟨by simpa [process_anthropic_stream_chat] using h1,
           by simpa [process_anthropic_stream_chat] using h2⟩

/-! ### Claim C9 — does formatting mutate the original schema? -/

/-- **C9, counterexample.** The claim: formatting the tool list never
mutates a descriptor's original `inputSchema` in place. On the OpenAI
path `format_tools_object_for_llm_call` passes the descriptor's own
schema dict to `filter_mcp_input_schema` (`helper.py` line 171), which
rewrites that dict in place (`helper.py` lines 27, 31, 36, 44-48, 52) and
returns the same object. For `cex9`, after formatting, the original
schema dict's state is `cex9after`, which differs from its pre-call
value. -/
theorem c9_counterexample :
    inputSchemaAfterFormat ("openai") cex9 = .ok cex9after ∧
    cex9after ≠ cex9.inputSchema := by
  exact ⟨rfl, by decide⟩

/-- **C9, amended.** The Anthropic projection passes the schema through
untouched, so there the original is unchanged; but the OpenAI projection
normalizes the descriptor's schema dict in place rather than copying it:
after a successful OpenAI formatting, the original schema object's state
equals the `parameters` value embedded in the formatted tool (they are
the same object), which in general — as the counterexample shows —
differs from the schema's pre-call value. -/
theorem c9_amended :
    ∀ (t : ToolDescr) (params : List (String × JsonVal)),
      inputSchemaAfterFormat ("anthropic") t = .ok t.inputSchema ∧
      (format_tools_object_for_llm_call [t] ("openai") =
          .ok [.openaiTool t.name t.description true params] →
        inputSchemaAfterFormat ("openai") t = .ok params) := by
  intro t params
  constructor
  · simp only [inputSchemaAfterFormat]
    rw [if_neg (by decide)]
  · intro h
    simp only [format_tools_object_for_llm_call] at h
    rw [if_neg (by decide), if_pos (by decide)] at h
    simp only [inputSchemaAfterFormat]
    rw [if_pos (by decide)]
    cases hf : filter_mcp_input_schema t.inputSchema with
    | error e => simp [formatOpenaiTools, hf] at h
    | ok p =>
        simp only [formatOpenaiTools, hf] at h
        simp only [Except.ok.injEq, List.cons.injEq, FormattedTool.openaiTool.injEq] at h
        rw [h.1.2.2.2]

theorem c9_amended_witness :
    inputSchemaAfterFormat ("anthropic") (⟨"t", "d", []⟩ : ToolDescr) = .ok [] ∧
    inputSchemaAfterFormat ("openai") (⟨"t", "d", []⟩ : ToolDescr) = .ok [] :=
  ⟨(c9_amended ⟨"t", "d", []⟩ []).1, (c9_amended ⟨"t", "d", []⟩ []).2 rfl⟩

/-! ### Claim C8 — normalizer idempotence

Lemmas about the dict operations on `List (String × JsonVal)`, then the
idempotence of the per-property rewriting, then the top-level theorem. -/

theorem getKey?_cons (a : String) (b : JsonVal) (t : List (String × JsonVal)) (k : String) :
    getKey? ((a, b) :: t) k = (if a = k then some b else getKey? t k) := by
  by_cases h : a = k <;> simp [getKey?, List.find?, h]

theorem hasKey_eq_isSome (l : List (String × JsonVal)) (k : String) :
    hasKey l k = (getKey? l k).isSome := by
  induction l with
  | nil => simp [hasKey, getKey?]
  | cons p t ih =>
      obtain ⟨a, b⟩ := p
      by_cases h : a = k
      · simp [hasKey, getKey?_cons, h]
      · simp only [hasKey, List.any_cons, getKey?_cons, if_neg h, decide_eq_true_eq, h,
          Bool.false_or]
        exact ih

theorem getKey?_setKey_self (l : List (String × JsonVal)) (k : String) (v : JsonVal) :
    getKey? (setKey l k v) k = some v := by
  induction l with
  | nil => simp [setKey, getKey?, List.find?]
  | cons p t ih =>
      obtain ⟨a, b⟩ := p
      by_cases h : a = k
      · simp [setKey, h, getKey?_cons]
      · simp [setKey, h, getKey?_cons, ih]

theorem getKey?_setKey_ne (l : List (String × JsonVal)) (k k2 : String) (v : JsonVal)
    (h : k ≠ k2) : getKey? (setKey l k2 v) k = getKey? l k := by
  induction l with
  | nil => simp [setKey, getKey?_cons, getKey?, List.find?, Ne.symm h]
  | cons p t ih =>
      obtain ⟨a, b⟩ := p
      by_cases ha : a = k2
      · subst ha
        simp [setKey, getKey?_cons, Ne.symm h]
      · simp [setKey, ha, getKey?_cons, ih]

theorem hasKey_setKey_self (l : List (String × JsonVal)) (k : String) (v : JsonVal) :
    hasKey (setKey l k v) k = true := by
  rw [hasKey_eq_isSome, getKey?_setKey_self]
  rfl

theorem hasKey_setKey_ne (l : List (String × JsonVal)) (k k2 : String) (v : JsonVal)
    (h : k ≠ k2) : hasKey (setKey l k2 v) k = hasKey l k := by
  rw [hasKey_eq_isSome, getKey?_setKey_ne _ _ _ _ h, ← hasKey_eq_isSome]

theorem getKey?_delKey_ne (l : List (String × JsonVal)) (k k2 : String)
    (h : k ≠ k2) : getKey? (delKey l k2) k = getKey? l k := by
  induction l with
  | nil => simp [delKey]
  | cons p t ih =>
      obtain ⟨a, b⟩ := p
      by_cases ha : a = k2
      · subst ha
        simp [delKey, getKey?_cons, Ne.symm h]
      · simp [delKey, ha, getKey?_cons, ih]

theorem hasKey_delKey_ne (l : List (String × JsonVal)) (k k2 : String)
    (h : k ≠ k2) : hasKey (delKey l k2) k = hasKey l k := by
  rw [hasKey_eq_isSome, getKey?_delKey_ne _ _ _ h, ← hasKey_eq_isSome]

theorem hasKey_delKey_self (l : List (String × JsonVal)) (k : String)
    (h : keysNodup l = true) : hasKey (delKey l k) k = false := by
  induction l with
  | nil => simp [delKey, hasKey]
  | cons p t ih =>
      obtain ⟨a, b⟩ := p
      simp only [keysNodup, Bool.and_eq_true, Bool.not_eq_true'] at h
      by_cases ha : a = k
      · subst ha
        simpa [delKey] using h.1
      · rw [show delKey ((a, b) :: t) k = (a, b) :: delKey t k by simp [delKey, ha]]
        simp only [hasKey, List.any_cons, decide_eq_true_eq, ha, Bool.false_or]
        exact ih h.2

theorem setKey_eq_of_getKey? (l : List (String × JsonVal)) (k : String) (v : JsonVal)
    (h : getKey? l k = some v) : setKey l k v = l := by
  induction l with
  | nil => simp [getKey?, List.find?] at h
  | cons p t ih =>
      obtain ⟨a, b⟩ := p
      by_cases ha : a = k
      · subst ha
        rw [getKey?_cons, if_pos rfl] at h
        simp only [Option.some.injEq] at h
        simp [setKey, h]
      · rw [getKey?_cons, if_neg ha] at h
        simp [setKey, ha, ih h]

theorem extendRequired_contains_mono (pl : List (String × JsonVal)) (R : List JsonVal)
    (x : JsonVal) (h : R.contains x = true) :
    (extendRequired R pl).contains x = true := by
  induction pl generalizing R with
  | nil => simpa [extendRequired] using h
  | cons kv t ih =>
      show (extendRequired
        (if R.contains (.jstr kv.1) then R else R ++ [.jstr kv.1]) t).contains x = true
      apply ih
      by_cases hc : R.contains (.jstr kv.1) = true
      · rw [if_pos hc]
        exact h
      · rw [if_neg hc]
        simp only [List.contains_iff_exists_mem_beq, List.mem_append] at h ⊢
        obtain ⟨y, hy, hby⟩ := h
        exact ⟨y, Or.inl hy, hby⟩

theorem extendRequired_contains_keys (pl : List (String × JsonVal)) (R : List JsonVal) :
    ∀ kv ∈ pl, (extendRequired R pl).contains (.jstr kv.1) = true := by
  induction pl generalizing R with
  | nil => simp
  | cons kv0 t ih =>
      intro kv hkv
      show (extendRequired
        (if R.contains (.jstr kv0.1) then R else R ++ [.jstr kv0.1]) t).contains _ = true
      rcases List.mem_cons.mp hkv with rfl | hmem
      · apply extendRequired_contains_mono
        by_cases hc : R.contains (.jstr kv.1) = true
        · rw [if_pos hc]
          exact hc
        · rw [if_neg hc]
          simp only [List.contains_iff_exists_mem_beq, List.mem_append, List.mem_singleton]
          exact ⟨.jstr kv.1, Or.inr rfl, by simp⟩
      · exact ih _ kv hmem

theorem extendRequired_id (pl : List (String × JsonVal)) (R : List JsonVal)
    (h : ∀ kv ∈ pl, R.contains (.jstr kv.1) = true) : extendRequired R pl = R := by
  induction pl with
  | nil => rfl
  | cons kv t ih =>
      show extendRequired (if R.contains (.jstr kv.1) then R else R ++ [.jstr kv.1]) t = R
      rw [if_pos (h kv (by simp))]
      exact ih (fun x hx => h x (by simp [hx]))

theorem flatCollapse_delKey_default (pl : List (String × JsonVal)) :
    flatCollapse (.jobj (delKey pl ("default"))) = flatCollapse (.jobj pl) := by
  simp only [flatCollapse, getKey?_delKey_ne pl ("type") ("default") (by decide)]

/-- A dict value whose `type` entry is not a list is left unchanged by
the collapse phase. -/
theorem collapseTypeList_nonarr (pl1 : List (String × JsonVal)) (tv : JsonVal)
    (ht : hasKey pl1 ("type") = true)
    (hg : getKey? pl1 ("type") = some tv) (harr : tv.isArr = false) :
    collapseTypeList (.jobj pl1) = .ok (.jobj pl1) := by
  cases tv with
  | jarr l => simp [JsonVal.isArr] at harr
  | jstr s => simp [collapseTypeList, pyInOp, pyGetItem, ht, hg]
  | jnum n => simp [collapseTypeList, pyInOp, pyGetItem, ht, hg]
  | jbool b => simp [collapseTypeList, pyInOp, pyGetItem, ht, hg]
  | jnull => simp [collapseTypeList, pyInOp, pyGetItem, ht, hg]
  | jobj pl => simp [collapseTypeList, pyInOp, pyGetItem, ht, hg]

/-- Idempotence of the type-collapse phase on dict values: under the
flatness condition, the collapsed value is stable, its `default` key is
untouched, and the result is still a dict. -/
theorem collapseTypeList_obj_spec (pl1 : List (String × JsonVal)) (w : JsonVal)
    (hflat : flatCollapse (.jobj pl1) = true)
    (h : collapseTypeList (.jobj pl1) = .ok w) :
    ∃ pl2, w = .jobj pl2 ∧ hasKey pl2 ("default") = hasKey pl1 ("default") ∧
      collapseTypeList (.jobj pl2) = .ok (.jobj pl2) := by
  by_cases ht : hasKey pl1 ("type")
  · cases hg : getKey? pl1 ("type") with
    | none => rw [hasKey_eq_isSome, hg] at ht; simp at ht
    | some tv =>
        by_cases harr : tv.isArr = true
        · obtain ⟨l, rfl⟩ : ∃ l, tv = .jarr l := by
            cases tv <;> simp [JsonVal.isArr] at harr
            exact ⟨_, rfl⟩
          by_cases hnull : l.contains (.jstr ("null")) = true
          · have hnull2 : JsonVal.jstr ("null") ∈ l := by simpa using hnull
            cases hfl : l.filter (fun x => x ≠ .jstr ("null")) with
            | nil =>
                have hfl2 : l.filter (fun x => !(x = JsonVal.jstr ("null") : Bool)) = [] := by
                  simpa [decide_not] using hfl
                have hred : collapseTypeList (.jobj pl1) = .ok (.jobj pl1) := by
                  simp [collapseTypeList, pyInOp, pyGetItem, ht, hg, hnull2, hfl2]
                rw [hred] at h
                injection h with h
                subst h
                exact ⟨pl1, rfl, rfl, hred⟩
            | cons o rest =>
                have ho : o.isArr = false := by
                  have hf := hflat
                  simp only [flatCollapse, hg, hnull, if_pos, hfl,
                    Bool.not_eq_true'] at hf
                  exact hf
                have hfl2 : l.filter (fun x => !(x = JsonVal.jstr ("null") : Bool)) =
                    o :: rest := by
                  simpa [decide_not] using hfl
                have hred : collapseTypeList (.jobj pl1) =
                    .ok (.jobj (setKey (setKey pl1 ("type") o) ("nullable")
                      (.jbool true))) := by
                  simp [collapseTypeList, pyInOp, pyGetItem, pySetItem, ht, hg, hnull2,
                    hfl2]
                rw [hred] at h
                injection h with h
                subst h
                refine ⟨_, rfl, ?_, ?_⟩
                · rw [hasKey_setKey_ne _ _ _ _ (by decide),
                    hasKey_setKey_ne _ _ _ _ (by decide)]
                · have htype2 : getKey? (setKey (setKey pl1 ("type") o) ("nullable")
                      (.jbool true)) ("type") = some o := by
                    rw [getKey?_setKey_ne _ _ _ _ (by decide), getKey?_setKey_self]
                  refine collapseTypeList_nonarr _ o ?_ htype2 ho
                  rw [hasKey_eq_isSome, htype2]
                  rfl
          · have hnull2 : ¬JsonVal.jstr ("null") ∈ l := by simpa using hnull
            cases l with
            | nil =>
                have hred : collapseTypeList (.jobj pl1) = .error .indexError := by
                  simp [collapseTypeList, pyInOp, pyGetItem, ht, hg, hnull2]
                rw [hred] at h
                exact absurd h (by simp)
            | cons o rest =>
                have ho : o.isArr = false := by
                  have hf := hflat
                  simp only [flatCollapse, hg, hnull, if_neg, Bool.not_eq_true'] at hf
                  simpa using hf
                have hred : collapseTypeList (.jobj pl1) =
                    .ok (.jobj (setKey pl1 ("type") o)) := by
                  simp [collapseTypeList, pyInOp, pyGetItem, pySetItem, ht, hg, hnull2]
                rw [hred] at h
                injection h with h
                subst h
                refine ⟨_, rfl, hasKey_setKey_ne _ _ _ _ (by decide), ?_⟩
                have htype2 : getKey? (setKey pl1 ("type") o) ("type") = some o :=
                  getKey?_setKey_self _ _ _
                refine collapseTypeList_nonarr _ o ?_ htype2 ho
                rw [hasKey_eq_isSome, htype2]
                rfl
        · have harr2 : tv.isArr = false := by simpa using harr
          have hred := collapseTypeList_nonarr pl1 tv ht hg harr2
          rw [hred] at h
          injection h with h
          subst h
          exact ⟨pl1, rfl, rfl, hred⟩
  · have hred : collapseTypeList (.jobj pl1) = .ok (.jobj pl1) := by
      simp [collapseTypeList, pyInOp, ht]
    rw [hred] at h
    injection h with h
    subst h
    exact ⟨pl1, rfl, rfl, hred⟩

/-- Idempotence of the per-property rewriting under well-formedness. -/
theorem processProperty_idem (v w : JsonVal) (hwf : propOk v = true)
    (h : processProperty v = .ok w) : processProperty w = .ok w := by
  cases v with
  | jnum n => simp [processProperty, pyInOp] at h
  | jbool b => simp [processProperty, pyInOp] at h
  | jnull => simp [processProperty, pyInOp] at h
  | jstr s =>
      by_cases hd : strHasSub s ("default")
      · simp [processProperty, pyInOp, pyDelItem, hd] at h
      · by_cases ht : strHasSub s ("type")
        · simp [processProperty, collapseTypeList, pyInOp, pyGetItem, hd, ht] at h
        · simp [processProperty, collapseTypeList, pyInOp, hd, ht] at h
          subst h
          simp [processProperty, collapseTypeList, pyInOp, hd, ht]
  | jarr l =>
      by_cases hd : JsonVal.jstr ("default") ∈ l
      · simp [processProperty, pyInOp, pyDelItem, hd] at h
      · by_cases ht : JsonVal.jstr ("type") ∈ l
        · simp [processProperty, collapseTypeList, pyInOp, pyGetItem, hd, ht] at h
        · simp [processProperty, collapseTypeList, pyInOp, hd, ht] at h
          subst h
          simp [processProperty, collapseTypeList, pyInOp, hd, ht]
  | jobj pl =>
      have hwf2 : keysNodup pl = true ∧ flatCollapse (.jobj pl) = true := by
        simpa [propOk, Bool.and_eq_true] using hwf
      by_cases hd : hasKey pl ("default")
      · have hcoll : collapseTypeList (.jobj (delKey pl ("default"))) = .ok w := by
          simpa [processProperty, pyInOp, pyDelItem, hd] using h
        have hflat1 : flatCollapse (.jobj (delKey pl ("default"))) = true := by
          rw [flatCollapse_delKey_default]
          exact hwf2.2
        obtain ⟨pl2, rfl, hdef2, hidem⟩ :=
          collapseTypeList_obj_spec (delKey pl ("default")) w hflat1 hcoll
        have hdef2' : hasKey pl2 ("default") = false := by
          rw [hdef2, hasKey_delKey_self pl ("default") hwf2.1]
        simp [processProperty, pyInOp, hdef2', hidem]
      · have hcoll : collapseTypeList (.jobj pl) = .ok w := by
          simpa [processProperty, pyInOp, pyDelItem, hd] using h
        obtain ⟨pl2, rfl, hdef2, hidem⟩ :=
          collapseTypeList_obj_spec pl w hwf2.2 hcoll
        have hdef2' : hasKey pl2 ("default") = false := by
          rw [hdef2]
          exact Bool.not_eq_true _ ▸ (by simpa using hd)
        simp [processProperty, pyInOp, hdef2', hidem]

/-- Idempotence and key preservation of the whole property loop. -/
theorem processProperties_spec (pl ql : List (String × JsonVal))
    (h : processProperties pl = .ok ql)
    (hwf : ∀ kv ∈ pl, propOk kv.2 = true) :
    processProperties ql = .ok ql ∧ ql.map Prod.fst = pl.map Prod.fst := by
  induction pl generalizing ql with
  | nil =>
      simp only [processProperties, Except.ok.injEq] at h
      subst h
      simp [processProperties]
  | cons kv t ih =>
      obtain ⟨k, v⟩ := kv
      cases hv : processProperty v with
      | error e => simp [processProperties, hv] at h
      | ok w =>
          cases htl : processProperties t with
          | error e => simp [processProperties, hv, htl] at h
          | ok rest =>
              simp only [processProperties, hv, htl, Except.ok.injEq] at h
              subst h
              have hw := processProperty_idem v w (hwf (k, v) (by simp)) hv
              obtain ⟨ih1, ih2⟩ := ih rest htl (fun x hx => hwf x (by simp [hx]))
              refine ⟨?_, by simp [ih2]⟩
              simp [processProperties, hw, ih1]

theorem ok_ite_inj {E α : Type} {c : Prop} [Decidable c] {t A B : α}
    (h : (Except.ok t : Except E α) = if c then Except.ok A else Except.ok B) :
    t = if c then A else B := by
  by_cases hc : c
  · rw [if_pos hc] at h ⊢
    exact Except.ok.inj h
  · rw [if_neg hc] at h ⊢
    exact Except.ok.inj h

/-- The shape of a successful `filter_mcp_input_schema` run on a schema
with dict-shaped properties: the result inserts a `required` list
containing every property key, replaces the properties with the processed
ones, and defaults `additionalProperties`. -/
theorem filter_shape (s : List (String × JsonVal))
    (propsList newPl : List (String × JsonVal)) (t : List (String × JsonVal))
    (hp : hasKey s ("properties") = true)
    (hgp : getKey? s ("properties") = some (.jobj propsList))
    (hpp : processProperties propsList = .ok newPl)
    (h : filter_mcp_input_schema s = .ok t) :
    ∃ R0 : List JsonVal,
      (∀ kv ∈ propsList, R0.contains (.jstr kv.1) = true) ∧
      t = (if hasKey (setKey (setKey s ("required") (.jarr R0)) ("properties")
              (.jobj newPl)) ("additionalProperties") then
            setKey (setKey s ("required") (.jarr R0)) ("properties") (.jobj newPl)
          else
            setKey (setKey (setKey s ("required") (.jarr R0)) ("properties")
              (.jobj newPl)) ("additionalProperties") (.jbool false)) := by
  have hmapmem : ∀ kv ∈ propsList,
      (propsList.map (fun kv => JsonVal.jstr kv.1)).contains (.jstr kv.1) = true := by
    intro kv hkv
    simp only [List.contains_iff_exists_mem_beq, List.mem_map]
    exact ⟨.jstr kv.1, ⟨kv, hkv, rfl⟩, by simp⟩
  cases hreq : getKey? s ("required") with
  | none =>
      refine ⟨propsList.map (fun kv => .jstr kv.1), hmapmem, ?_⟩
      have hthis := h.symm
      simp only [filter_mcp_input_schema, hp, if_pos, hgp, hreq, hpp] at hthis
      exact ok_ite_inj hthis
  | some rv =>
      cases rv
      case jarr reqList =>
        refine ⟨extendRequired reqList propsList,
          extendRequired_contains_keys propsList reqList, ?_⟩
        have hthis := h.symm
        simp only [filter_mcp_input_schema, hp, if_pos, hgp, hreq, hpp] at hthis
        exact ok_ite_inj hthis
      all_goals
        refine ⟨propsList.map (fun kv => .jstr kv.1), hmapmem, ?_⟩
      all_goals
        have hthis := h.symm
      all_goals
        simp only [filter_mcp_input_schema, hp, if_pos, hgp, hreq, hpp] at hthis
      all_goals
        exact ok_ite_inj hthis

/-- **C8, counterexample.** The claim: normalizing any schema twice equals
normalizing it once. For `cex8` — whose property `x` declares the
list-valued type `[["a"], "null"]` — the first pass selects the first
non-null entry `["a"]` (itself a list) and the second pass collapses that
list once more to `"a"`, so the second normalization changes the
schema again. -/
theorem c8_counterexample :
    filter_mcp_input_schema cex8 = .ok cex8once ∧
    filter_mcp_input_schema cex8once = .ok cex8twice ∧
    cex8twice ≠ cex8once := by
  exact ⟨rfl, rfl, by decide⟩

/-- **C8, amended.** The normalizer is deterministic (it is a function),
and it is idempotent on every schema whose property dicts are well-formed
Python dicts (no duplicate keys) and whose list-valued `type`s collapse
to a non-list element: re-normalizing such a normalized schema is a
no-op. When the selected element of a type list is itself a list (as in
the counterexample) the second pass collapses it again, so idempotence
does not hold for every input. -/
theorem c8_amended :
    ∀ (s t : List (String × JsonVal)),
      filter_mcp_input_schema s = .ok t →
      (∀ kv ∈ propsOf s, propOk kv.2 = true) →
      filter_mcp_input_schema t = .ok t := by
  intro s t h hwf
  by_cases hp : hasKey s ("properties")
  case neg =>
      rw [show filter_mcp_input_schema s = .ok s by
        simp [filter_mcp_input_schema, hp]] at h
      injection h with h
      subst h
      simp [filter_mcp_input_schema, hp]
  case pos =>
      cases hgp : getKey? s ("properties") with
      | none => rw [hasKey_eq_isSome, hgp] at hp; simp at hp
      | some props =>
          cases props
          case jobj propsList =>
            have hwf' : ∀ kv ∈ propsList, propOk kv.2 = true := by
              intro kv hkv
              exact hwf kv (by simpa [propsOf, hgp] using hkv)
            cases hpp : processProperties propsList with
            | error e => simp [filter_mcp_input_schema, hp, hgp, hpp] at h
            | ok newPl =>
                obtain ⟨hqidem, hqkeys⟩ := processProperties_spec propsList newPl hpp hwf'
                obtain ⟨R0, hR0, hT⟩ := filter_shape s propsList newPl t hp hgp hpp h
                have hR0' : ∀ kv ∈ newPl, R0.contains (.jstr kv.1) = true := by
                  intro kv hkv
                  have : kv.1 ∈ newPl.map Prod.fst := List.mem_map_of_mem _ hkv
                  rw [hqkeys] at this
                  obtain ⟨kv2, hkv2, hkeq⟩ := List.mem_map.mp this
                  rw [← hkeq]
                  exact hR0 kv2 hkv2
                clear h
                set s2 := setKey (setKey s ("required") (.jarr R0)) ("properties")
                  (.jobj newPl) with hs2
                have hprops_t : getKey? t ("properties") = some (.jobj newPl) := by
                  rw [hT]
                  by_cases hap : hasKey s2 ("additionalProperties")
                  · rw [if_pos hap, hs2, getKey?_setKey_self]
                  · rw [if_neg hap, getKey?_setKey_ne _ _ _ _ (by decide), hs2,
                      getKey?_setKey_self]
                have hreq_t : getKey? t ("required") = some (.jarr R0) := by
                  rw [hT]
                  by_cases hap : hasKey s2 ("additionalProperties")
                  · rw [if_pos hap, hs2, getKey?_setKey_ne _ _ _ _ (by decide),
                      getKey?_setKey_self]
                  · rw [if_neg hap, getKey?_setKey_ne _ _ _ _ (by decide), hs2,
                      getKey?_setKey_ne _ _ _ _ (by decide), getKey?_setKey_self]
                have hap_t : hasKey t ("additionalProperties") = true := by
                  rw [hT]
                  by_cases hap : hasKey s2 ("additionalProperties")
                  · rw [if_pos hap]
                    exact hap
                  · rw [if_neg hap]
                    exact hasKey_setKey_self _ _ _
                have hp_t : hasKey t ("properties") = true := by
                  rw [hasKey_eq_isSome, hprops_t]
                  rfl
                simp only [filter_mcp_input_schema, hp_t, if_pos, hprops_t, hreq_t,
                  extendRequired_id newPl R0 hR0', hqidem]
                rw [setKey_eq_of_getKey? t ("required") (.jarr R0) hreq_t,
                  setKey_eq_of_getKey? t ("properties") (.jobj newPl) hprops_t,
                  if_pos hap_t]
          all_goals simp [filter_mcp_input_schema, hp, hgp] at h

theorem c8_amended_witness :
    filter_mcp_input_schema cex9after = .ok cex9after :=
  c8_amended [("properties", .jobj [("x", .jobj [])])] cex9after rfl (by decide)

end MCPToolkit
